import Mathlib

/-!
3DWorld city traffic core: cars and stoplights.

A shallow embedding of the inline definitions of `src/src/city.h`
(`car_t`, `stoplight_ns`, `stoplight_t`) together with theorems about them.

Modelling conventions.
* C++ `float` values are idealised as exact rationals (`ℚ`): rounding, infinities and NaN
  are outside that model. Where they decide a statement (zero frame time, strict slowing),
  the speed update is given again on IEEE-754 binary32 values (`binary32`, `car_speed32`).
* The global frame time `fticks` is passed explicitly to the operations that read it.
* `unsigned char` / `uint8_t` / `unsigned short` fields are natural numbers; where the code
  increments a `uint8_t` the wrap-around `% 256` is explicit.
* A C array read `tbl[i]` is the list lookup `tbl[i]?`; `none` stands for reading out of bounds.
* `TICKS_PER_SECOND` is declared outside `city.h`; it is a parameter of the functions using it.
-/

namespace City

/-! ## Constants of `city.h` -/

/-- The `unsigned const CONN_CITY_IX((1<<16)-1)` of city.h line 17. -/
def CONN_CITY_IX : Nat := (1 <<< 16) - 1

/-- The `float const CONN_ROAD_SPEED_MULT = 2.0` of city.h line 34. -/
def CONN_ROAD_SPEED_MULT : ℚ := 2

/-- Road type tags, `enum {TYPE_PLOT=0, TYPE_RSEG, TYPE_ISEC2, ...}`. -/
def TYPE_PLOT : Nat := 0
/-- Road type tag of a plain road segment. -/
def TYPE_RSEG : Nat := 1
/-- Road type tag of a 2-way intersection (bend). -/
def TYPE_ISEC2 : Nat := 2
/-- Road type tag of a 3-way intersection. -/
def TYPE_ISEC3 : Nat := 3
/-- Road type tag of a 4-way intersection. -/
def TYPE_ISEC4 : Nat := 4
/-- Road type tag of a parking lot. -/
def TYPE_PARK_LOT : Nat := 5
/-- Road type tag of railroad tracks. -/
def TYPE_TRACKS : Nat := 6
/-- Number of road types. -/
def NUM_RD_TYPES : Nat := 7

/-- Turn tags, `enum {TURN_NONE=0, TURN_LEFT, TURN_RIGHT, TURN_UNSPEC}`. -/
def TURN_NONE : Nat := 0
/-- Turn tag: left turn. -/
def TURN_LEFT : Nat := 1
/-- Turn tag: right turn. -/
def TURN_RIGHT : Nat := 2
/-- Turn tag: not yet decided. -/
def TURN_UNSPEC : Nat := 3

/-! ## Cars -/

/-- An axis aligned box `cube_t`: `d[i][0]` and `d[i][1]` for the three dimensions. -/
structure cube_t where
  x1 : ℚ
  x2 : ℚ
  y1 : ℚ
  y2 : ℚ
  z1 : ℚ
  z2 : ℚ
deriving DecidableEq, Repr

/-- The box `cube_t(all_zeros)`. -/
def cube_t.all_zeros : cube_t := ⟨0, 0, 0, 0, 0, 0⟩

/-- The data members of `struct car_t` (city.h lines 112-117). The non-owning pointer
`car_in_front` is an optional index into the car sequence. -/
structure car_t where
  bcube : cube_t
  prev_bcube : cube_t
  dim : Bool
  dir : Bool
  stopped_at_light : Bool
  entering_city : Bool
  in_tunnel : Bool
  dest_valid : Bool
  destroyed : Bool
  cur_road_type : Nat
  color_id : Nat
  turn_dir : Nat
  front_car_turn_dir : Nat
  model_id : Nat
  cur_city : Nat
  cur_road : Nat
  cur_seg : Nat
  dest_city : Nat
  dest_isec : Nat
  height : ℚ
  dz : ℚ
  rot_z : ℚ
  turn_val : ℚ
  cur_speed : ℚ
  max_speed : ℚ
  waiting_pos : ℚ
  waiting_start : ℚ
  car_in_front : Option Nat
deriving DecidableEq, Repr

namespace car_t

/-- The default constructor `car_t()` (city.h lines 119-121). -/
def new : car_t where
  bcube := cube_t.all_zeros
  prev_bcube := cube_t.all_zeros
  dim := false
  dir := false
  stopped_at_light := false
  entering_city := false
  in_tunnel := false
  dest_valid := false
  destroyed := false
  cur_road_type := TYPE_RSEG
  color_id := 0
  turn_dir := TURN_NONE
  front_car_turn_dir := TURN_UNSPEC
  model_id := 0
  cur_city := 0
  cur_road := 0
  cur_seg := 0
  dest_city := 0
  dest_isec := 0
  height := 0
  dz := 0
  rot_z := 0
  turn_val := 0
  cur_speed := 0
  max_speed := 0
  waiting_pos := 0
  waiting_start := 0
  car_in_front := none

/-- Embeds `unsigned get_orient() const {return (2*dim + dir);}` -/
def get_orient (c : car_t) : Nat := 2 * c.dim.toNat + c.dir.toNat

/-- Embeds `unsigned get_orient_in_isec() const {return (2*dim + (!dir));}` -/
def get_orient_in_isec (c : car_t) : Nat := 2 * c.dim.toNat + (!c.dir).toNat

/-- Embeds `float get_max_speed() const
{return ((cur_city == CONN_CITY_IX) ? CONN_ROAD_SPEED_MULT : 1.0)*max_speed;}` -/
def get_max_speed (c : car_t) : ℚ :=
  (if c.cur_city = CONN_CITY_IX then CONN_ROAD_SPEED_MULT else 1) * c.max_speed

/-- Embeds `bool is_stopped() const {return (cur_speed == 0.0);}` -/
def is_stopped (c : car_t) : Bool := decide (c.cur_speed = 0)

/-- Embeds `bool is_parked() const {return (max_speed == 0.0);}` -/
def is_parked (c : car_t) : Bool := decide (c.max_speed = 0)

/-- Embeds `void park() {cur_speed = max_speed = 0.0;}` -/
def park (c : car_t) : car_t := { c with cur_speed := 0, max_speed := 0 }

/-- Embeds `void accelerate(float mult=0.02)
{cur_speed = min(get_max_speed(), (cur_speed + mult*fticks*max_speed));}` -/
def accelerate (c : car_t) (fticks : ℚ) (mult : ℚ := 2 / 100) : car_t :=
  { c with cur_speed := min c.get_max_speed (c.cur_speed + mult * fticks * c.max_speed) }

/-- Embeds `void decelerate(float mult=0.05)
{cur_speed = max(0.0f, (cur_speed - mult*fticks*max_speed));}` -/
def decelerate (c : car_t) (fticks : ℚ) (mult : ℚ := 5 / 100) : car_t :=
  { c with cur_speed := max 0 (c.cur_speed - mult * fticks * c.max_speed) }

/-- Embeds `void decelerate_fast() {decelerate(10.0);}` -/
def decelerate_fast (c : car_t) (fticks : ℚ) : car_t := c.decelerate fticks 10

/-- Embeds `void stop() {cur_speed = 0.0;}` -/
def stop (c : car_t) : car_t := { c with cur_speed := 0 }

/-- The speed invariant of a car: `0 ≤ cur_speed ≤ get_max_speed()`. -/
def speed_in_range (c : car_t) : Prop := 0 ≤ c.cur_speed ∧ c.cur_speed ≤ c.get_max_speed

instance (c : car_t) : Decidable c.speed_in_range := by
  unfold speed_in_range; infer_instance

end car_t

/-! ## Stoplights (`namespace stoplight_ns`) -/

namespace stoplight_ns

/-- Light colours, `enum {GREEN_LIGHT=0, YELLOW_LIGHT, RED_LIGHT}`. -/
def GREEN_LIGHT : Nat := 0
/-- Light colour: yellow. -/
def YELLOW_LIGHT : Nat := 1
/-- Light colour: red. -/
def RED_LIGHT : Nat := 2

/-- Phases, `enum {EGL=0, EGWG, WGL, NGL, NGSG, SGL, NUM_STATE}`. -/
def EGL : Nat := 0
/-- Phase: east and west go straight or right. -/
def EGWG : Nat := 1
/-- Phase: west goes, with left turn. -/
def WGL : Nat := 2
/-- Phase: north goes, with left turn. -/
def NGL : Nat := 3
/-- Phase: north and south go straight or right. -/
def NGSG : Nat := 4
/-- Phase: south goes, with left turn. -/
def SGL : Nat := 5
/-- Number of phases. -/
def NUM_STATE : Nat := 6

/-- Embeds `float const state_times[NUM_STATE] = {5.0, 6.0, 5.0, 5.0, 6.0, 5.0}` (seconds). -/
def state_times : List ℚ := [5, 6, 5, 5, 6, 5]

/-- Embeds `unsigned const st_r_orient_masks[NUM_STATE] = {2, 3, 1, 8, 12, 4}`, bits `{W=1, E=2, S=4, N=8}`,
for straight and right turns. -/
def st_r_orient_masks : List Nat := [2, 3, 1, 8, 12, 4]

/-- Embeds `unsigned const left_orient_masks[NUM_STATE] = {2, 0, 1, 8, 0, 4}`, bits `{W=1, E=2, S=4, N=8}`,
for left turns only. -/
def left_orient_masks : List Nat := [2, 0, 1, 8, 0, 4]

/-- Embeds `unsigned const to_right[4] = {3, 2, 0, 1}; // {N, S, W, E}` -/
def to_right : List Nat := [3, 2, 0, 1]

/-- Embeds `unsigned const to_left[4] = {2, 3, 1, 0}; // {S, N, E, W}` -/
def to_left : List Nat := [2, 3, 1, 0]

/-- Embeds `unsigned const other_lane[4] = {1, 0, 3, 2}; // {E, W, N, S}` -/
def other_lane : List Nat := [1, 0, 3, 2]

/-- The data members of `class stoplight_t` (city.h lines 283-288). -/
structure stoplight_t where
  num_conn : Nat
  conn : Nat
  cur_state : Nat
  at_conn_road : Bool
  cur_state_ticks : ℚ
  car_waiting_sr : Nat
  car_waiting_left : Nat
  blocked : List Bool
deriving DecidableEq, Repr

namespace stoplight_t

/-- Embeds `void reset_blocked() {UNROLL_4X(blocked[i_] = 0;)}` -/
def reset_blocked (s : stoplight_t) : stoplight_t :=
  { s with blocked := (((s.blocked.set 0 false).set 1 false).set 2 false).set 3 false }

/-- The constructor `stoplight_t(bool at_conn_road_)`: `num_conn(0), conn(0),
cur_state(RED_LIGHT), at_conn_road(at_conn_road_), cur_state_ticks(0.0), car_waiting_sr(0),
car_waiting_left(0)`, then `reset_blocked()` on the four-entry `blocked` array. -/
def new (at_conn_road_ : Bool) : stoplight_t :=
  reset_blocked
    { num_conn := 0, conn := 0, cur_state := RED_LIGHT, at_conn_road := at_conn_road_,
      cur_state_ticks := 0, car_waiting_sr := 0, car_waiting_left := 0,
      blocked := List.replicate 4 false }

/-- The private member
`void next_state() {++cur_state; if (cur_state == NUM_STATE) {cur_state = 0;}}`
on the `uint8_t cur_state`. -/
def next_state (s : stoplight_t) : stoplight_t :=
  let cur := (s.cur_state + 1) % 256
  { s with cur_state := if cur = NUM_STATE then 0 else cur }

/-- Embeds `float get_cur_state_time_secs() const
{return (at_conn_road ? 2.0 : 1.0)*TICKS_PER_SECOND*state_times[cur_state];}`;
`none` when `cur_state` is outside `state_times`. -/
def get_cur_state_time_secs (TICKS_PER_SECOND : ℚ) (s : stoplight_t) : Option ℚ :=
  (state_times[s.cur_state]?).map
    (fun t => (if s.at_conn_road then 2 else 1) * TICKS_PER_SECOND * t)

end stoplight_t

end stoplight_ns

/-- The unit vector `(x, y)` of the heading with direction index `d = 2*dim + dir`:
`dim` selects the axis (`0` is x, `1` is y) and `dir` its negative (`0`) or positive (`1`)
end, so that `0 = -x`, `1 = +x`, `2 = -y`, `3 = +y`. -/
def heading (d : Nat) : ℤ × ℤ :=
  let sgn : ℤ := if d % 2 = 1 then 1 else -1
  if d / 2 = 0 then (sgn, 0) else (0, sgn)

/-- Rotation of a plane vector by 90 degrees clockwise, seen from above (+x east, +y north). -/
def rotate_cw (v : ℤ × ℤ) : ℤ × ℤ := (v.2, -v.1)

/-- Rotation of a plane vector by 90 degrees counter-clockwise, seen from above. -/
def rotate_ccw (v : ℤ × ℤ) : ℤ × ℤ := (-v.2, v.1)

/-- A stoplight in phase `NGSG` at a connector road, used to instantiate the theorems. -/
def sample_light : stoplight_ns.stoplight_t :=
  { stoplight_ns.stoplight_t.new true with cur_state := stoplight_ns.NGSG, cur_state_ticks := 7 }

/-- A moving car used to instantiate the theorems: speed 1 of at most 3, on a city road. -/
def sample_car : car_t := { car_t.new with cur_speed := 1, max_speed := 3, cur_city := 4 }

/-- A moving car on the connector "city": speed 5 of a nominal maximum 3 (effective 6). -/
def sample_conn_car : car_t :=
  { car_t.new with cur_speed := 5, max_speed := 3, cur_city := CONN_CITY_IX }

/-! ## Further definitions of `city.h`: road types, index encoding, headlights, flags -/

/-- Embeds `inline bool is_isect(unsigned type)
{return (type >= TYPE_ISEC2 && type <= TYPE_ISEC4);}` -/
def is_isect (type : Nat) : Bool := decide (type ≥ TYPE_ISEC2) && decide (type ≤ TYPE_ISEC4)

/-- The value of the integer `n` as a 32-bit two's complement `int`. -/
def wrap_int32 (n : Int) : Int := (n + 2147483648) % 4294967296 - 2147483648

/-- The value of the integer `n` as a 32-bit `unsigned`. -/
def wrap_uint32 (n : Int) : Nat := (n % 4294967296).toNat

/-- Embeds `inline int encode_neg_ix(unsigned ix) {return -(int(ix)+1);}` on 32-bit integers:
the conversion `int(ix)`, the addition and the negation each wrap. -/
def encode_neg_ix (ix : Nat) : Int := wrap_int32 (-(wrap_int32 (wrap_int32 (ix : Int) + 1)))

/-- Embeds `inline unsigned decode_neg_ix(int ix) {assert(ix < 0); return -(ix+1);}`;
`none` is the failed assertion, and the `int` result is converted to `unsigned`. -/
def decode_neg_ix (ix : Int) : Option Nat :=
  if ix < 0 then some (wrap_uint32 (wrap_int32 (-(wrap_int32 (ix + 1))))) else none

/-- The `float const HEADLIGHT_ON_RAND = 0.1` of city.h line 35. -/
def HEADLIGHT_ON_RAND : ℚ := 1 / 10

/-- Embeds `inline float rand_hash(float to_hash) {return fract(12345.6789*to_hash);}`;
`fract` is declared outside `city.h` and is a parameter. -/
def rand_hash (fract : ℚ → ℚ) (to_hash : ℚ) : ℚ := fract (123456789 / 10000 * to_hash)

/-- Embeds `inline float signed_rand_hash(float to_hash)
{return 0.5*(rand_hash(to_hash) - 1.0);}` -/
def signed_rand_hash (fract : ℚ → ℚ) (to_hash : ℚ) : ℚ := 1 / 2 * (rand_hash fract to_hash - 1)

/-- Embeds `bool in_isect() const {return is_isect(cur_road_type);}` -/
def car_t.in_isect (c : car_t) : Bool := is_isect c.cur_road_type

/-- Embeds `bool headlights_on() const {return (!is_parked() && (in_tunnel ||
is_night(HEADLIGHT_ON_RAND*signed_rand_hash(height + max_speed))));}`; `is_night` (the time
of day test) and `fract` are declared outside `city.h` and are parameters. -/
def car_t.headlights_on (fract : ℚ → ℚ) (is_night : ℚ → Bool) (c : car_t) : Bool :=
  !c.is_parked &&
    (c.in_tunnel || is_night (HEADLIGHT_ON_RAND * signed_rand_hash fract (c.height + c.max_speed)))

/-- Embeds `unsigned get_isec_type() const
{assert(in_isect()); return (cur_road_type - TYPE_ISEC2);}`; `none` is the failed assertion. -/
def car_t.get_isec_type (c : car_t) : Option Nat :=
  if c.in_isect then some (c.cur_road_type - TYPE_ISEC2) else none

/-- One call of a speed operation of `car_t`, with the frame time `fticks` in force at the
call and the multiplier passed to it. -/
inductive speed_call where
  | accelerate (fticks mult : ℚ)
  | decelerate (fticks mult : ℚ)
  | decelerate_fast (fticks : ℚ)
  | stop
deriving DecidableEq, Repr

/-- The car after one speed operation call. -/
def speed_call.apply (c : car_t) : speed_call → car_t
  | .accelerate fticks mult => c.accelerate fticks mult
  | .decelerate fticks mult => c.decelerate fticks mult
  | .decelerate_fast fticks => c.decelerate_fast fticks
  | .stop => c.stop

/-- The car after a finite sequence of speed operation calls, first call first. -/
def run_speed_calls (c : car_t) (calls : List speed_call) : car_t :=
  calls.foldl speed_call.apply c

/-- Embeds `void mark_blocked(bool dim, bool dir) const {blocked[2*dim + dir] = 1;}` -/
def stoplight_ns.stoplight_t.mark_blocked (s : stoplight_ns.stoplight_t) (dim dir : Bool) :
    stoplight_ns.stoplight_t :=
  { s with blocked := s.blocked.set (2 * dim.toNat + dir.toNat) true }

/-- Embeds `bool is_blocked(bool dim, bool dir) const {return (blocked[2*dim + dir] != 0);}`;
`none` when the index is outside `blocked`. -/
def stoplight_ns.stoplight_t.is_blocked (s : stoplight_ns.stoplight_t) (dim dir : Bool) :
    Option Bool :=
  (s.blocked[2 * dim.toNat + dir.toNat]?).map (fun b => b != false)

/-- The data members of `struct road_isec_t` (city.h lines 391-395); the base `cube_t` is the
field `bcube`, and the two `short [4]` arrays, read only at constant indices, are functions
on `Fin 4`. -/
structure road_isec_t where
  bcube : cube_t
  num_conn : Nat
  conn : Nat
  conn_to_city : Int
  rix_xy : Fin 4 → Int
  conn_ix : Fin 4 → Int
  stoplight : stoplight_ns.stoplight_t

/-- Embeds `bool is_global_conn_int() const
{return (rix_xy[0] < 0 || rix_xy[1] < 0 || rix_xy[2] < 0 || rix_xy[3] < 0);}` -/
def road_isec_t.is_global_conn_int (r : road_isec_t) : Bool :=
  decide (r.rix_xy 0 < 0) || decide (r.rix_xy 1 < 0) || decide (r.rix_xy 2 < 0) ||
    decide (r.rix_xy 3 < 0)

/-- A parked car standing in a tunnel. -/
def parked_tunnel_car : car_t := { car_t.new with in_tunnel := true }

/-- A moving car in a tunnel. -/
def moving_tunnel_car : car_t := { sample_car with in_tunnel := true }

/-- A 3-way intersection whose north road is a connector (global) road. -/
def sample_isec : road_isec_t :=
  { bcube := cube_t.all_zeros, num_conn := 3, conn := 11, conn_to_city := -1,
    rix_xy := fun i => if i = 3 then -2 else 5, conn_ix := fun _ => 0,
    stoplight := stoplight_ns.stoplight_t.new true }

/-! ## OBJ file reader (`src/src/object_file_reader.cpp`) -/

/-- Embeds `void normalize_index(int &ix, unsigned vect_sz) const` of `object_file_reader`:
`assert(ix != 0); if (ix < 0) {ix += vect_sz;} else {--ix;} assert((unsigned)ix < vect_sz);`
on 32-bit integers. The result is the new value of `ix`; `none` is a failed assertion. -/
def normalize_index (ix : Int) (vect_sz : Nat) : Option Int :=
  if ix = 0 then none
  else
    let ix1 : Int :=
      if ix < 0 then wrap_int32 (((wrap_uint32 ix + vect_sz) % 4294967296 : Nat) : Int)
      else wrap_int32 (ix - 1)
    if wrap_uint32 ix1 < vect_sz then some ix1 else none

/-- The loop of `get_path`: `for (unsigned pos = fn.size(); pos > 0; --pos)
{if (fn[pos-1] == '\\' || fn[pos-1] == '/') {return string(fn.begin(), fn.begin()+pos);}}
return string();`, started at the value `pos` of the loop variable. -/
def get_path_loop (fn : List Char) : Nat → List Char
  | 0 => []
  | pos + 1 =>
    if fn[pos]? = some '\\' ∨ fn[pos]? = some '/' then fn.take (pos + 1)
    else get_path_loop fn pos

/-- Embeds `string get_path(string const &fn) const` of `object_file_reader_model`, a string
being the list of its characters. -/
def get_path (fn : List Char) : List Char := get_path_loop fn fn.length

/-! ## Text vertices (`src/src/draw_text.cpp`) -/

/-- A 3D point `point`, also used as the vector type `vector3d`. -/
structure point where
  x : ℚ
  y : ℚ
  z : ℚ
deriving DecidableEq, Repr

/-- Vector sum `p + q`. -/
def point.add (p q : point) : point := ⟨p.x + q.x, p.y + q.y, p.z + q.z⟩

/-- Product `v * k` of a vector and a scalar. -/
def point.scale (v : point) (k : ℚ) : point := ⟨v.x * k, v.y * k, v.z * k⟩

/-- Negated vector `-v`. -/
def point.neg (v : point) : point := ⟨-v.x, -v.y, -v.z⟩

/-- The data members of `struct per_char_data_t`: texture coordinates and step width. -/
structure per_char_data_t where
  u1 : ℚ
  u2 : ℚ
  v1 : ℚ
  v2 : ℚ
  width : ℚ
deriving DecidableEq, Repr

/-- A vertex `vert_tc_t` as built by `verts.emplace_back(pos, t0, t1)`: a position and two
texture coordinates. -/
structure vert_tc_t where
  v : point
  t0 : ℚ
  t1 : ℚ
deriving DecidableEq, Repr

/-- The six vertices pushed for one character in `gen_text_verts`:
`for (unsigned i = 0; i < 6; ++i) {unsigned const ix(quad_to_tris_ixs[i]);
verts.emplace_back((cursor + column_dir*dx[ix] + line_dir*dy[ix]), t[ix][0], t[ix][1]);}`.
The table `quad_to_tris_ixs` is declared outside `draw_text.cpp` and is a parameter. -/
def gen_char_verts (quad_to_tris_ixs : Fin 6 → Fin 4) (pcd : per_char_data_t) (char_sz : ℚ)
    (column_dir line_dir cursor : point) : List vert_tc_t :=
  let char_width : ℚ := char_sz * pcd.width
  let t : Fin 4 → ℚ × ℚ := ![(pcd.u1, pcd.v1), (pcd.u2, pcd.v1), (pcd.u2, pcd.v2), (pcd.u1, pcd.v2)]
  let dx : Fin 4 → ℚ := ![0, char_width, char_width, 0]
  let dy : Fin 4 → ℚ := ![0, 0, char_sz, char_sz]
  (List.finRange 6).map (fun i =>
    let ix := quad_to_tris_ixs i
    { v := (cursor.add (column_dir.scale (dx ix))).add (line_dir.scale (dy ix)),
      t0 := (t ix).1, t1 := (t ix).2 })

/-- The `else` branch of the loop body of `gen_text_verts` for the character `c`: look up
its glyph, `continue` when `pcd.width == 0.0`, otherwise push six vertices and advance the
cursor by `column_dir*(char_width + char_sz*char_spacing)` with `char_spacing = 0.06`.
Returns the new cursor and vertex vector. The glyph table of `font_texture_manager` is the
parameter `lookup_ascii`. -/
def draw_char (lookup_ascii : Char → per_char_data_t) (quad_to_tris_ixs : Fin 6 → Fin 4)
    (char_sz : ℚ) (column_dir line_dir : point) (c : Char) (cursor : point)
    (verts : List vert_tc_t) : point × List vert_tc_t :=
  let pcd := lookup_ascii c
  if pcd.width = 0 then (cursor, verts)
  else
    (cursor.add (column_dir.scale (char_sz * pcd.width + char_sz * (3 / 50))),
      verts ++ gen_char_verts quad_to_tris_ixs pcd char_sz column_dir line_dir cursor)

/-- The `for` loop of `gen_text_verts` over the remaining characters of `text`, with the
state `cursor`, `line_start`, `verts`; the second branch consumes two characters (`++i`). -/
def gen_text_verts_loop (lookup_ascii : Char → per_char_data_t)
    (quad_to_tris_ixs : Fin 6 → Fin 4) (char_sz : ℚ) (column_dir line_dir line_delta : point) :
    List Char → point → point → List vert_tc_t → List vert_tc_t
  | [], _, _, verts => verts
  | c :: rest, cursor, line_start, verts =>
    if c = '\n' then
      gen_text_verts_loop lookup_ascii quad_to_tris_ixs char_sz column_dir line_dir line_delta
        rest (line_start.add line_delta) (line_start.add line_delta) verts
    else
      match rest with
      | c2 :: rest2 =>
        if c = '\\' ∧ c2 = 'n' then
          gen_text_verts_loop lookup_ascii quad_to_tris_ixs char_sz column_dir line_dir
            line_delta rest2 (line_start.add line_delta) (line_start.add line_delta) verts
        else
          gen_text_verts_loop lookup_ascii quad_to_tris_ixs char_sz column_dir line_dir
            line_delta (c2 :: rest2)
            (draw_char lookup_ascii quad_to_tris_ixs char_sz column_dir line_dir c cursor verts).1
            line_start
            (draw_char lookup_ascii quad_to_tris_ixs char_sz column_dir line_dir c cursor verts).2
      | [] =>
        (draw_char lookup_ascii quad_to_tris_ixs char_sz column_dir line_dir c cursor verts).2

/-- Embeds `void gen_text_verts(vector<vert_tc_t> &verts, point const &pos, string const &text,
float tsize, vector3d const &column_dir, vector3d const &line_dir)`: `line_spacing = 1.25`,
`char_sz = 0.001*tsize`, `line_delta = -line_dir*line_spacing*char_sz`, cursor and line start
at `pos`. Returns the vertex vector after the call. -/
def gen_text_verts (lookup_ascii : Char → per_char_data_t) (quad_to_tris_ixs : Fin 6 → Fin 4)
    (verts : List vert_tc_t) (pos : point) (text : List Char) (tsize : ℚ)
    (column_dir line_dir : point) : List vert_tc_t :=
  let char_sz : ℚ := 1 / 1000 * tsize
  let line_delta : point := (line_dir.neg.scale (5 / 4)).scale char_sz
  gen_text_verts_loop lookup_ascii quad_to_tris_ixs char_sz column_dir line_dir line_delta
    text pos pos verts

/-- Specification: the number of drawn characters of a text as the claim counts them. A
newline character is a line break; a backslash directly followed by `n` is one line break
of two characters; every other character (also a backslash that is last or not followed by
`n`) is drawn unless its glyph width is 0. -/
def spec_drawn_chars (width : Char → ℚ) : List Char → Nat
  | [] => 0
  | c :: rest =>
    if c = '\n' then spec_drawn_chars width rest
    else
      match rest with
      | c2 :: rest2 =>
        if c = '\\' ∧ c2 = 'n' then spec_drawn_chars width rest2
        else (if width c = 0 then 0 else 1) + spec_drawn_chars width (c2 :: rest2)
      | [] => if width c = 0 then 0 else 1

/-- A glyph table in which every character has width 1/2, except `'~'` which has width 0. -/
def sample_font (c : Char) : per_char_data_t :=
  { u1 := 0, u2 := 1 / 16, v1 := 0, v2 := 1 / 16, width := if c = '~' then 0 else 1 / 2 }

/-- The usual triangulation order of a quad, `{0, 1, 2, 0, 2, 3}`. -/
def sample_quad_ixs : Fin 6 → Fin 4 := ![0, 1, 2, 0, 2, 3]

/-! ## IEEE-754 binary32 model of the speed update

The operations of `car_t` that decide what happens at extreme multipliers and at tiny steps
are repeated here on binary32 values: every finite result is rounded to nearest, ties to
even, with 24 significant bits, exponents of the unit in the last place from -149 to 104,
and overflow to an infinity. Each `float` operation is rounded on its own (no wider
intermediate precision, no fused multiply-add). Positive and negative zero are identified,
and exception flags are not modelled. -/

/-- A value of the C++ type `float` (IEEE-754 binary32): a finite rational, an infinity or a
NaN. -/
inductive binary32 where
  | fin (q : ℚ)
  | pinf
  | ninf
  | nan
deriving DecidableEq, Repr

/-- Rounding of a rational to the nearest integer, ties to the even one. -/
def round_half_even (y : ℚ) : ℤ :=
  if y - ⌊y⌋ < 1 / 2 then ⌊y⌋
  else if 1 / 2 < y - ⌊y⌋ then ⌊y⌋ + 1
  else if ⌊y⌋ % 2 = 0 then ⌊y⌋ else ⌊y⌋ + 1

namespace binary32

/-- The exponent `e` of the unit in the last place `2^e` used to round `x`: 23 below the
binary exponent of `x`, and not below -149 (subnormal range). -/
def quantum_exp (x : ℚ) : ℤ := max (Int.log 2 |x| - 23) (-149)

/-- The rational `x` rounded to a multiple of its unit in the last place, exponent
unbounded above. -/
def round_rat (x : ℚ) : ℚ := (round_half_even (x / 2 ^ quantum_exp x) : ℚ) * 2 ^ quantum_exp x

/-- The binary32 value of the exact result `x`: rounded to nearest, overflowing to an
infinity from `2^128` on. -/
def round (x : ℚ) : binary32 :=
  if 2 ^ 128 ≤ round_rat x then pinf
  else if round_rat x ≤ -2 ^ 128 then ninf
  else fin (round_rat x)

/-- A value that a `float` variable can hold: a finite value is one that rounding leaves
unchanged. -/
def is_value : binary32 → Prop
  | fin q => round q = fin q
  | _ => True

/-- The binary32 product `a * b`. -/
def mul : binary32 → binary32 → binary32
  | nan, _ => nan
  | _, nan => nan
  | fin a, fin b => round (a * b)
  | fin a, pinf => if a = 0 then nan else if 0 < a then pinf else ninf
  | fin a, ninf => if a = 0 then nan else if 0 < a then ninf else pinf
  | pinf, fin b => if b = 0 then nan else if 0 < b then pinf else ninf
  | ninf, fin b => if b = 0 then nan else if 0 < b then ninf else pinf
  | pinf, pinf => pinf
  | pinf, ninf => ninf
  | ninf, pinf => ninf
  | ninf, ninf => pinf

/-- The binary32 sum `a + b`. -/
def add : binary32 → binary32 → binary32
  | nan, _ => nan
  | _, nan => nan
  | fin a, fin b => round (a + b)
  | fin _, pinf => pinf
  | fin _, ninf => ninf
  | pinf, fin _ => pinf
  | ninf, fin _ => ninf
  | pinf, pinf => pinf
  | pinf, ninf => nan
  | ninf, pinf => nan
  | ninf, ninf => ninf

/-- The binary32 negation `-a`. -/
def neg : binary32 → binary32
  | fin a => fin (-a)
  | pinf => ninf
  | ninf => pinf
  | nan => nan

/-- The binary32 difference `a - b`. -/
def sub (a b : binary32) : binary32 := add a (neg b)

/-- The comparison `a < b`, false when either side is a NaN. -/
def lt : binary32 → binary32 → Bool
  | nan, _ => false
  | _, nan => false
  | fin a, fin b => decide (a < b)
  | fin _, pinf => true
  | fin _, ninf => false
  | pinf, _ => false
  | ninf, fin _ => true
  | ninf, pinf => true
  | ninf, ninf => false

/-- The comparison `a <= b`, false when either side is a NaN. -/
def le : binary32 → binary32 → Bool
  | nan, _ => false
  | _, nan => false
  | fin a, fin b => decide (a ≤ b)
  | fin _, pinf => true
  | fin _, ninf => false
  | pinf, pinf => true
  | pinf, _ => false
  | ninf, _ => true

/-- The `std::min(a, b)` of `<algorithm>`: `(b < a) ? b : a`. -/
def std_min (a b : binary32) : binary32 := if lt b a then b else a

/-- The `std::max(a, b)` of `<algorithm>`: `(a < b) ? b : a`. -/
def std_max (a b : binary32) : binary32 := if lt a b then b else a

end binary32

/-- The fields of `car_t` that `get_max_speed`, `accelerate` and `decelerate` read or write,
as binary32 values. -/
structure car_speed32 where
  cur_city : Nat
  cur_speed : binary32
  max_speed : binary32
deriving DecidableEq, Repr

namespace car_speed32

/-- Embeds `float get_max_speed() const
{return ((cur_city == CONN_CITY_IX) ? CONN_ROAD_SPEED_MULT : 1.0)*max_speed;}` on binary32
values; the factor is exactly 2 or 1. -/
def get_max_speed (c : car_speed32) : binary32 :=
  binary32.mul (binary32.fin (if c.cur_city = CONN_CITY_IX then CONN_ROAD_SPEED_MULT else 1))
    c.max_speed

/-- Embeds `void accelerate(float mult=0.02)
{cur_speed = min(get_max_speed(), (cur_speed + mult*fticks*max_speed));}` on binary32
values, each operation rounded. -/
def accelerate (c : car_speed32) (fticks mult : binary32) : car_speed32 :=
  { c with cur_speed :=
      (binary32.std_min c.get_max_speed
        (binary32.add c.cur_speed (binary32.mul (binary32.mul mult fticks) c.max_speed))) }

/-- Embeds `void decelerate(float mult=0.05)
{cur_speed = max(0.0f, (cur_speed - mult*fticks*max_speed));}` on binary32 values, each
operation rounded. -/
def decelerate (c : car_speed32) (fticks mult : binary32) : car_speed32 :=
  { c with cur_speed :=
      (binary32.std_max (binary32.fin 0)
        (binary32.sub c.cur_speed (binary32.mul (binary32.mul mult fticks) c.max_speed))) }

/-- The speed invariant `0 <= cur_speed <= get_max_speed()` on binary32 values. -/
def speed_in_range (c : car_speed32) : Prop :=
  binary32.le (binary32.fin 0) c.cur_speed = true ∧
    binary32.le c.cur_speed c.get_max_speed = true

end car_speed32

/-- The speed fields of a car on the connector city with `cur_speed = 5`, `max_speed = 3`. -/
def sample_conn_speed32 : car_speed32 :=
  { cur_city := CONN_CITY_IX, cur_speed := binary32.fin 5, max_speed := binary32.fin 3 }

/-- The effective maximum is non-negative when `max_speed` is. -/
theorem car_t.get_max_speed_nonneg (c : car_t) (hm : 0 ≤ c.max_speed) :
    0 ≤ c.get_max_speed := by
  unfold car_t.get_max_speed CONN_ROAD_SPEED_MULT
  split_ifs <;> linarith

/-- C1: speed invariant. For a car with `max_speed ≥ 0` and `0 ≤ cur_speed ≤ get_max_speed()`,
a frame time `fticks ≥ 0` and a multiplier `mult ≥ 0`, each of `accelerate(mult)`,
`decelerate(mult)`, `decelerate_fast()`, `stop()` and `park()` yields a car that again
satisfies `0 ≤ cur_speed ≤ get_max_speed()`, the bound being read on the resulting car. -/
theorem speed_invariant_preserved (c : car_t) (fticks mult : ℚ)
    (hmax : 0 ≤ c.max_speed) (hinv : c.speed_in_range)
    (hf : 0 ≤ fticks) (hmult : 0 ≤ mult) :
    (c.accelerate fticks mult).speed_in_range ∧
    (c.decelerate fticks mult).speed_in_range ∧
    (c.decelerate_fast fticks).speed_in_range ∧
    c.stop.speed_in_range ∧
    c.park.speed_in_range := by
  obtain ⟨h0, h1⟩ := hinv
  have hE : 0 ≤ c.get_max_speed := c.get_max_speed_nonneg hmax
  have hstep : 0 ≤ mult * fticks * c.max_speed := mul_nonneg (mul_nonneg hmult hf) hmax
  have hfast : 0 ≤ (10 : ℚ) * fticks * c.max_speed :=
    mul_nonneg (mul_nonneg (by norm_num) hf) hmax
  refine ⟨⟨?_, ?_⟩, ⟨?_, ?_⟩, ⟨?_, ?_⟩, ⟨?_, ?_⟩, ⟨?_, ?_⟩⟩
  · exact le_min hE (by linarith)
  · exact min_le_left _ _
  · exact le_max_left _ _
  · exact max_le hE (by change c.cur_speed - mult * fticks * c.max_speed ≤ c.get_max_speed
                        linarith)
  · exact le_max_left _ _
  · exact max_le hE (by change c.cur_speed - 10 * fticks * c.max_speed ≤ c.get_max_speed
                        linarith)
  · exact le_refl _
  · exact hE
  · exact le_refl _
  · simp [car_t.park, car_t.get_max_speed]

/-- Instance of C1 at `sample_conn_car` with `fticks = 1/2`, `mult = 3`. -/
theorem speed_invariant_preserved_witness :
    (sample_conn_car.accelerate (1 / 2) 3).speed_in_range ∧
    (sample_conn_car.decelerate (1 / 2) 3).speed_in_range ∧
    (sample_conn_car.decelerate_fast (1 / 2)).speed_in_range ∧
    sample_conn_car.stop.speed_in_range ∧
    sample_conn_car.park.speed_in_range :=
  speed_invariant_preserved sample_conn_car (1 / 2) 3
    (by norm_num [sample_conn_car, car_t.new])
    (by norm_num [car_t.speed_in_range, car_t.get_max_speed, sample_conn_car, car_t.new,
      CONN_ROAD_SPEED_MULT])
    (by norm_num) (by norm_num)

/-- C2: `accelerate(mult)` sets `cur_speed` to `min(E, cur_speed + mult*fticks*max_speed)` where
the effective maximum `E = get_max_speed()` is `2*max_speed` when `cur_city == CONN_CITY_IX`
(65535) and `max_speed` for every other city; every other field of the car is unchanged. -/
theorem accelerate_sets_clamped_speed (c : car_t) (fticks mult : ℚ) :
    CONN_CITY_IX = 65535 ∧
    c.get_max_speed = (if c.cur_city = 65535 then 2 * c.max_speed else c.max_speed) ∧
    c.accelerate fticks mult =
      { c with cur_speed :=
          (min (if c.cur_city = 65535 then 2 * c.max_speed else c.max_speed)
            (c.cur_speed + mult * fticks * c.max_speed)) } := by
  have hE : c.get_max_speed = (if c.cur_city = 65535 then 2 * c.max_speed else c.max_speed) := by
    unfold car_t.get_max_speed CONN_ROAD_SPEED_MULT CONN_CITY_IX
    split_ifs <;> simp_all
  refine ⟨by decide, hE, ?_⟩
  unfold car_t.accelerate
  rw [hE]

/-- C3: `decelerate(mult)` sets `cur_speed` to `max(0, cur_speed - mult*fticks*max_speed)` and
changes no other field, so the resulting speed is never negative; `decelerate_fast()` is
`decelerate(10)`; and when `fticks*max_speed ≥ 0` the speed after `decelerate_fast()` is at
most the speed after the default `decelerate()` (`mult = 0.05`) of the same car. -/
theorem decelerate_clamps_at_zero (c : car_t) (fticks mult : ℚ) :
    c.decelerate fticks mult =
      { c with cur_speed := max 0 (c.cur_speed - mult * fticks * c.max_speed) } ∧
    0 ≤ (c.decelerate fticks mult).cur_speed ∧
    c.decelerate_fast fticks = c.decelerate fticks 10 ∧
    (0 ≤ fticks * c.max_speed →
      (c.decelerate_fast fticks).cur_speed ≤ (c.decelerate fticks).cur_speed ∧
      (c.decelerate fticks).cur_speed = max 0 (c.cur_speed - 5 / 100 * fticks * c.max_speed)) := by
  refine ⟨rfl, le_max_left _ _, rfl, fun h => ⟨?_, rfl⟩⟩
  have h1 : (5 / 100 : ℚ) * fticks * c.max_speed ≤ 10 * fticks * c.max_speed := by
    nlinarith
  exact max_le_max (le_refl _) (by linarith)

/-- Instance of C3 at `sample_car` with `fticks = 1/4`: the fast deceleration stops the car
(speed 0) while the default one leaves it at 77/80. -/
theorem decelerate_clamps_at_zero_witness :
    0 ≤ (1 / 4 : ℚ) * sample_car.max_speed ∧
    (sample_car.decelerate_fast (1 / 4)).cur_speed ≤ (sample_car.decelerate (1 / 4)).cur_speed :=
  ⟨by norm_num [sample_car, car_t.new],
   ((decelerate_clamps_at_zero sample_car (1 / 4) 1).2.2.2
      (by norm_num [sample_car, car_t.new])).1⟩

/-! ## Theorems about stoplights -/

open stoplight_ns stoplight_ns.stoplight_t

/-- One `next_state()` from a phase below `NUM_STATE` is the successor modulo 6. -/
theorem stoplight_ns.stoplight_t.next_state_eq (s : stoplight_t) (h : s.cur_state < NUM_STATE) :
    s.next_state = { s with cur_state := (s.cur_state + 1) % 6 } := by
  obtain ⟨nc, cn, cur, acr, tk, wsr, wl, bl⟩ := s
  simp only [NUM_STATE] at h
  interval_cases cur <;> simp [next_state, NUM_STATE]

/-- After `k` calls of `next_state()` from a phase below `NUM_STATE` the phase has advanced
by `k` modulo 6 and nothing else has changed. -/
theorem stoplight_ns.stoplight_t.iterate_next_state (s : stoplight_t)
    (h : s.cur_state < NUM_STATE) (k : Nat) :
    next_state^[k] s = { s with cur_state := (s.cur_state + k) % 6 } := by
  induction k with
  | zero =>
    simp only [NUM_STATE] at h
    simp [Nat.mod_eq_of_lt h]
  | succ k ih =>
    rw [Function.iterate_succ_apply', ih, next_state_eq _ (Nat.mod_lt _ (by decide))]
    have : ((s.cur_state + k) % 6 + 1) % 6 = (s.cur_state + (k + 1)) % 6 := by omega
    simp [this]

/-- C4: for a stoplight in phase `i < 6`, `next_state()` changes `cur_state` to `(i+1) mod 6`
(phase 5 wraps to 0) and changes nothing else; six consecutive calls give back the same
stoplight, and the phases seen at the steps `0..5` are `i, i+1, ..., i+5` modulo 6, a
rearrangement of `0..5`, so each other phase is visited exactly once in the fixed order. -/
theorem next_state_cycles_mod_six (s : stoplight_t) (h : s.cur_state < NUM_STATE) :
    s.next_state = { s with cur_state := (s.cur_state + 1) % 6 } ∧
    (s.cur_state = 5 → s.next_state.cur_state = 0) ∧
    next_state^[6] s = s ∧
    (List.range 6).map (fun k => (next_state^[k] s).cur_state) =
      (List.range 6).map (fun k => (s.cur_state + k) % 6) ∧
    ((List.range 6).map (fun k => (next_state^[k] s).cur_state)).Perm (List.range 6) := by
  have hmap : (List.range 6).map (fun k => (next_state^[k] s).cur_state) =
      (List.range 6).map (fun k => (s.cur_state + k) % 6) := by
    apply List.map_congr_left
    intro k _
    rw [iterate_next_state s h k]
  refine ⟨next_state_eq s h, ?_, ?_, hmap, ?_⟩
  · intro h5
    rw [next_state_eq s h, h5]
  · rw [iterate_next_state s h 6]
    obtain ⟨nc, cn, cur, acr, tk, wsr, wl, bl⟩ := s
    simp only [NUM_STATE] at h
    have : (cur + 6) % 6 = cur := by omega
    simp [this]
  · rw [hmap]
    simp only [NUM_STATE] at h
    generalize s.cur_state = i at h
    interval_cases i <;> decide

/-- Instance of C4 at `sample_light` (phase 4): the phases seen are `4, 5, 0, 1, 2, 3`. -/
theorem next_state_cycles_mod_six_witness :
    sample_light.cur_state < NUM_STATE ∧
    next_state^[6] sample_light = sample_light ∧
    (List.range 6).map (fun k => (next_state^[k] sample_light).cur_state) =
      (List.range 6).map (fun k => (sample_light.cur_state + k) % 6) :=
  ⟨by decide, (next_state_cycles_mod_six sample_light (by decide)).2.2.1,
    (next_state_cycles_mod_six sample_light (by decide)).2.2.2.1⟩

/-- Embeds `next_state()` keeps the phase below `NUM_STATE`. -/
theorem stoplight_ns.stoplight_t.next_state_lt (s : stoplight_t) (h : s.cur_state < NUM_STATE) :
    s.next_state.cur_state < NUM_STATE := by
  rw [next_state_eq s h]
  exact Nat.mod_lt _ (by decide)

/-- Every stoplight reached from construction by `next_state()` calls has a phase below
`NUM_STATE`. -/
theorem stoplight_ns.stoplight_t.reachable_lt (b : Bool) (n : Nat) :
    (next_state^[n] (stoplight_t.new b)).cur_state < NUM_STATE := by
  induction n with
  | zero => cases b <;> decide
  | succ n ih =>
    rw [Function.iterate_succ_apply']
    exact next_state_lt _ ih

/-- C5: phase-range invariant. A newly constructed stoplight (either value of `at_conn_road`)
has `cur_state` in `0..5`; `next_state()` preserves `cur_state < NUM_STATE`; hence after any
number `n` of `next_state()` calls from construction the phase is below `NUM_STATE = 6`,
exactly one of the six phases is the current one, and `get_cur_state_time_secs()` reads
`state_times` within bounds. -/
theorem phase_range_invariant (at_conn_road_ : Bool) (n : Nat) (TICKS_PER_SECOND : ℚ) :
    NUM_STATE = 6 ∧
    (stoplight_t.new at_conn_road_).cur_state < NUM_STATE ∧
    (∀ s : stoplight_t, s.cur_state < NUM_STATE → s.next_state.cur_state < NUM_STATE) ∧
    (next_state^[n] (stoplight_t.new at_conn_road_)).cur_state < NUM_STATE ∧
    (∃! i, i ∈ List.range NUM_STATE ∧
      (next_state^[n] (stoplight_t.new at_conn_road_)).cur_state = i) ∧
    (get_cur_state_time_secs TICKS_PER_SECOND
      (next_state^[n] (stoplight_t.new at_conn_road_))).isSome = true := by
  have hlt := reachable_lt at_conn_road_ n
  refine ⟨rfl, reachable_lt at_conn_road_ 0, fun s h => next_state_lt s h, hlt, ?_, ?_⟩
  · exact ⟨_, ⟨List.mem_range.mpr hlt, rfl⟩, fun j hj => hj.2.symm⟩
  · unfold get_cur_state_time_secs
    rw [Option.isSome_map']
    have hlen : (next_state^[n] (stoplight_t.new at_conn_road_)).cur_state < state_times.length :=
      hlt
    simp [List.getElem?_eq_getElem hlen]

/-- Instance of C5: `next_state()` at `sample_light` (phase 4), and seven steps from a new
stoplight at a connector road. -/
theorem phase_range_invariant_witness :
    sample_light.cur_state < NUM_STATE ∧ sample_light.next_state.cur_state < NUM_STATE ∧
    (next_state^[7] (stoplight_t.new true)).cur_state < NUM_STATE :=
  ⟨by decide, (phase_range_invariant true 7 40).2.2.1 sample_light (by decide),
    (phase_range_invariant true 7 40).2.2.2.1⟩

/-- C6: in phase `i < 6`, `get_cur_state_time_secs()` is `TICKS_PER_SECOND * state_times[i]`
when `at_conn_road` is false and exactly twice that when it is true, where
`state_times = {5, 6, 5, 5, 6, 5}`. -/
theorem cur_state_time_doubles_at_conn_road (TICKS_PER_SECOND : ℚ) (s : stoplight_t) (i : Nat)
    (hi : i < NUM_STATE) (hs : s.cur_state = i) :
    state_times = [5, 6, 5, 5, 6, 5] ∧
    ∃ t, state_times[i]? = some t ∧
      (s.at_conn_road = false →
        get_cur_state_time_secs TICKS_PER_SECOND s = some (TICKS_PER_SECOND * t)) ∧
      (s.at_conn_road = true →
        get_cur_state_time_secs TICKS_PER_SECOND s = some (2 * (TICKS_PER_SECOND * t))) := by
  refine ⟨rfl, ?_⟩
  have hlen : i < state_times.length := hi
  refine ⟨state_times[i], List.getElem?_eq_getElem hlen, ?_, ?_⟩
  · intro hb
    simp [get_cur_state_time_secs, hs, hb, List.getElem?_eq_getElem hlen]
  · intro hb
    simp [get_cur_state_time_secs, hs, hb, List.getElem?_eq_getElem hlen, mul_assoc]

/-- Instance of C6 at `sample_light` (phase 4, connector road) with 40 ticks per second:
the phase lasts `2 * (40 * 6)` ticks. -/
theorem cur_state_time_doubles_at_conn_road_witness :
    ∃ t, state_times[4]? = some t ∧
      (sample_light.at_conn_road = false →
        get_cur_state_time_secs 40 sample_light = some (40 * t)) ∧
      (sample_light.at_conn_road = true →
        get_cur_state_time_secs 40 sample_light = some (2 * (40 * t))) :=
  (cur_state_time_doubles_at_conn_road 40 sample_light 4 (by decide) (by decide)).2

/-- C7: starting from any phase in `0..5`, the six values of `get_cur_state_time_secs()` met
over one full cycle of `next_state()` steps are all defined and add up to
`TICKS_PER_SECOND` times the sum of `state_times`, which is 32 seconds, and to twice that
(64 seconds) when `at_conn_road` is set. -/
theorem full_cycle_time (TICKS_PER_SECOND : ℚ) (s : stoplight_t)
    (h : s.cur_state < NUM_STATE) :
    state_times.sum = 32 ∧
    ∃ ts : List ℚ,
      (List.range 6).map (fun k => get_cur_state_time_secs TICKS_PER_SECOND (next_state^[k] s)) =
        ts.map some ∧
      (s.at_conn_road = false → ts.sum = TICKS_PER_SECOND * state_times.sum) ∧
      (s.at_conn_road = false → ts.sum = 32 * TICKS_PER_SECOND) ∧
      (s.at_conn_road = true → ts.sum = 2 * (TICKS_PER_SECOND * state_times.sum)) ∧
      (s.at_conn_road = true → ts.sum = 64 * TICKS_PER_SECOND) := by
  have hsum : state_times.sum = 32 := by norm_num [state_times]
  refine ⟨hsum, ?_⟩
  have hmap : (List.range 6).map
        (fun k => get_cur_state_time_secs TICKS_PER_SECOND (next_state^[k] s)) =
      (List.range 6).map (fun k => get_cur_state_time_secs TICKS_PER_SECOND
        { s with cur_state := (s.cur_state + k) % 6 }) := by
    apply List.map_congr_left
    intro k _
    rw [iterate_next_state s h k]
  rw [hmap, hsum]
  obtain ⟨nc, cn, cur, acr, tk, wsr, wl, bl⟩ := s
  simp only [NUM_STATE] at h
  refine ⟨(List.range 6).map (fun k =>
    (if acr then 2 else 1) * TICKS_PER_SECOND * state_times.getD ((cur + k) % 6) 0), ?_, ?_⟩
  · interval_cases cur <;>
      simp [get_cur_state_time_secs, state_times, List.range, List.range.loop]
  · cases acr <;> interval_cases cur <;>
      simp [state_times, List.range, List.range.loop] <;> ring_nf <;> simp

/-- Instance of C7 at `sample_light` (phase 4, connector road) with 40 ticks per second. -/
theorem full_cycle_time_witness :
    ∃ ts : List ℚ,
      (List.range 6).map (fun k => get_cur_state_time_secs 40 (next_state^[k] sample_light)) =
        ts.map some ∧
      (sample_light.at_conn_road = false → ts.sum = 40 * state_times.sum) ∧
      (sample_light.at_conn_road = false → ts.sum = 32 * 40) ∧
      (sample_light.at_conn_road = true → ts.sum = 2 * (40 * state_times.sum)) ∧
      (sample_light.at_conn_road = true → ts.sum = 64 * 40) :=
  (full_cycle_time 40 sample_light (by decide)).2

/-! ## Theorems about the phase masks and the turn tables -/

/-- C8: protected left turns. In every phase `i < 6`, `left_orient_masks[i]` is a subset of
`st_r_orient_masks[i]`; when `left_orient_masks[i]` is non-zero it is the bit of exactly one
direction `d` and `st_r_orient_masks[i]` is that same single bit; so whenever direction `d`
may turn left and direction `e` may go straight or right in the same phase, `e = d`. -/
theorem left_turns_are_protected (i : Nat) (hi : i < NUM_STATE) :
    ∃ l r, left_orient_masks[i]? = some l ∧ st_r_orient_masks[i]? = some r ∧
      l &&& r = l ∧
      (l ≠ 0 → ∃ d, d < 4 ∧ l = 1 <<< d ∧ r = 1 <<< d) ∧
      (∀ d, d < 4 → ∀ e, e < 4 → l.testBit d = true → r.testBit e = true → e = d) := by
  simp only [NUM_STATE] at hi
  interval_cases i
  · exact ⟨2, 2, rfl, rfl, by decide, fun _ => ⟨1, by decide, rfl, rfl⟩, by decide⟩
  · exact ⟨0, 3, rfl, rfl, by decide, fun h => absurd rfl h, by decide⟩
  · exact ⟨1, 1, rfl, rfl, by decide, fun _ => ⟨0, by decide, rfl, rfl⟩, by decide⟩
  · exact ⟨8, 8, rfl, rfl, by decide, fun _ => ⟨3, by decide, rfl, rfl⟩, by decide⟩
  · exact ⟨0, 12, rfl, rfl, by decide, fun h => absurd rfl h, by decide⟩
  · exact ⟨4, 4, rfl, rfl, by decide, fun _ => ⟨2, by decide, rfl, rfl⟩, by decide⟩

/-- Instance of C8 at phase 3 (`NGL`): both masks are the single bit 8 of direction 3. -/
theorem left_turns_are_protected_witness :
    ∃ l r, left_orient_masks[3]? = some l ∧ st_r_orient_masks[3]? = some r ∧
      l &&& r = l ∧
      (l ≠ 0 → ∃ d, d < 4 ∧ l = 1 <<< d ∧ r = 1 <<< d) ∧
      (∀ d, d < 4 → ∀ e, e < 4 → l.testBit d = true → r.testBit e = true → e = d) :=
  left_turns_are_protected 3 (by decide)

/-- C9: for every direction `d` in `{0=W, 1=E, 2=S, 3=N}`, `other_lane[d]` is the opposite
direction on the same axis (same `d/2`, other direction bit, opposite heading), with
W to E, E to W, S to N and N to S, and `other_lane[other_lane[d]] == d`. -/
theorem other_lane_is_opposite_involution (d : Nat) (hd : d < 4) :
    other_lane = [1, 0, 3, 2] ∧
    ∃ e, other_lane[d]? = some e ∧ e < 4 ∧
      e / 2 = d / 2 ∧ e % 2 = 1 - d % 2 ∧ heading e = -heading d ∧
      other_lane[e]? = some d := by
  refine ⟨rfl, ?_⟩
  interval_cases d
  · exact ⟨1, rfl, by decide, by decide, by decide, by decide, rfl⟩
  · exact ⟨0, rfl, by decide, by decide, by decide, by decide, rfl⟩
  · exact ⟨3, rfl, by decide, by decide, by decide, by decide, rfl⟩
  · exact ⟨2, rfl, by decide, by decide, by decide, by decide, rfl⟩

/-- Instance of C9 at `d = 0`: going straight from West leads to East. -/
theorem other_lane_is_opposite_involution_witness :
    other_lane[0]? = some 1 ∧
    ∃ e, other_lane[0]? = some e ∧ e < 4 ∧
      e / 2 = 0 / 2 ∧ e % 2 = 1 - 0 % 2 ∧ heading e = -heading 0 ∧
      other_lane[e]? = some 0 :=
  ⟨rfl, (other_lane_is_opposite_involution 0 (by decide)).2⟩

/-- C10: reading the direction index `2*dim + dir` as a heading (`0 = -x = W`, `1 = +x = E`,
`2 = -y = S`, `3 = +y = N`), for every `d < 4` the entry `to_right[d]` is the one direction
whose heading is the heading of `d` rotated by 90 degrees clockwise, and `to_left[d]` the one
whose heading is it rotated by 90 degrees counter-clockwise; `to_right` maps W,E,S,N to
N,S,W,E and `to_left` maps W,E,S,N to S,N,E,W. -/
theorem turn_tables_rotate_heading (d : Nat) (hd : d < 4) :
    to_right = [3, 2, 0, 1] ∧ to_left = [2, 3, 1, 0] ∧
    (heading 0 = (-1, 0) ∧ heading 1 = (1, 0) ∧ heading 2 = (0, -1) ∧ heading 3 = (0, 1)) ∧
    ∃ r l, to_right[d]? = some r ∧ to_left[d]? = some l ∧ r < 4 ∧ l < 4 ∧
      heading r = rotate_cw (heading d) ∧ heading l = rotate_ccw (heading d) ∧
      (∀ e, e < 4 → heading e = rotate_cw (heading d) → e = r) ∧
      (∀ e, e < 4 → heading e = rotate_ccw (heading d) → e = l) := by
  refine ⟨rfl, rfl, by decide, ?_⟩
  interval_cases d
  · exact ⟨3, 2, rfl, rfl, by decide, by decide, by decide, by decide, by decide, by decide⟩
  · exact ⟨2, 3, rfl, rfl, by decide, by decide, by decide, by decide, by decide, by decide⟩
  · exact ⟨0, 1, rfl, rfl, by decide, by decide, by decide, by decide, by decide, by decide⟩
  · exact ⟨1, 0, rfl, rfl, by decide, by decide, by decide, by decide, by decide, by decide⟩

/-- Instance of C10 at `d = 0`: a right turn from heading West leads North (3), a left turn
leads South (2). -/
theorem turn_tables_rotate_heading_witness :
    to_right[0]? = some 3 ∧ to_left[0]? = some 2 ∧
    ∃ r l, to_right[0]? = some r ∧ to_left[0]? = some l ∧ r < 4 ∧ l < 4 ∧
      heading r = rotate_cw (heading 0) ∧ heading l = rotate_ccw (heading 0) ∧
      (∀ e, e < 4 → heading e = rotate_cw (heading 0) → e = r) ∧
      (∀ e, e < 4 → heading e = rotate_ccw (heading 0) → e = l) :=
  ⟨rfl, rfl, (turn_tables_rotate_heading 0 (by decide)).2.2.2⟩

/-! ## Theorems about parking, stopping and headlights -/

/-- One speed operation call keeps a car with `cur_speed = 0` and `max_speed = 0` in that
state. -/
theorem speed_call.apply_parked (p : car_t) (op : speed_call)
    (h0 : p.cur_speed = 0) (hm : p.max_speed = 0) :
    (op.apply p).cur_speed = 0 ∧ (op.apply p).max_speed = 0 := by
  cases op <;>
    simp [speed_call.apply, car_t.accelerate, car_t.decelerate, car_t.decelerate_fast,
      car_t.stop, car_t.get_max_speed, h0, hm]

/-- A sequence of speed operation calls keeps a car with `cur_speed = 0` and `max_speed = 0`
in that state. -/
theorem run_speed_calls_parked (calls : List speed_call) (p : car_t)
    (h0 : p.cur_speed = 0) (hm : p.max_speed = 0) :
    (run_speed_calls p calls).cur_speed = 0 ∧ (run_speed_calls p calls).max_speed = 0 := by
  induction calls generalizing p with
  | nil => exact ⟨h0, hm⟩
  | cons op rest ih =>
    obtain ⟨h0', hm'⟩ := speed_call.apply_parked p op h0 hm
    exact ih (op.apply p) h0' hm'

/-- C11: after `park()` a car has `cur_speed == 0`, `max_speed == 0` and `is_parked()` true;
and from any state with `cur_speed == 0` and `max_speed == 0` (any `cur_city`, also
`CONN_CITY_IX`) every finite sequence of `accelerate(mult)`, `decelerate(mult)`,
`decelerate_fast()` and `stop()` calls, with any multipliers and frame times, leaves
`cur_speed == 0` and `max_speed == 0`. -/
theorem parked_car_never_regains_speed (c : car_t) (calls : List speed_call) :
    c.park.cur_speed = 0 ∧ c.park.max_speed = 0 ∧ c.park.is_parked = true ∧
    (run_speed_calls c.park calls).cur_speed = 0 ∧
    (run_speed_calls c.park calls).max_speed = 0 ∧
    (∀ p : car_t, p.cur_speed = 0 → p.max_speed = 0 →
      (run_speed_calls p calls).cur_speed = 0 ∧ (run_speed_calls p calls).max_speed = 0 ∧
      (run_speed_calls p calls).is_parked = true) := by
  have hp := run_speed_calls_parked calls c.park rfl rfl
  refine ⟨rfl, rfl, by simp [car_t.park, car_t.is_parked], hp.1, hp.2, ?_⟩
  intro p h0 hm
  have h := run_speed_calls_parked calls p h0 hm
  exact ⟨h.1, h.2, by simp [car_t.is_parked, h.2]⟩

/-- Instance of C11: the car `parked_tunnel_car` placed on the connector city stays at speed
0 through an acceleration, a fast deceleration, a stop and a negative-multiplier
deceleration. -/
theorem parked_car_never_regains_speed_witness :
    (run_speed_calls { parked_tunnel_car with cur_city := CONN_CITY_IX }
      [.accelerate 3 7, .decelerate_fast 2, .stop, .decelerate 1 (-4)]).cur_speed = 0 ∧
    (run_speed_calls { parked_tunnel_car with cur_city := CONN_CITY_IX }
      [.accelerate 3 7, .decelerate_fast 2, .stop, .decelerate 1 (-4)]).max_speed = 0 ∧
    (run_speed_calls { parked_tunnel_car with cur_city := CONN_CITY_IX }
      [.accelerate 3 7, .decelerate_fast 2, .stop, .decelerate 1 (-4)]).is_parked = true :=
  (parked_car_never_regains_speed sample_car
    [.accelerate 3 7, .decelerate_fast 2, .stop, .decelerate 1 (-4)]).2.2.2.2.2
    { parked_tunnel_car with cur_city := CONN_CITY_IX } rfl rfl

/-- C12: `is_parked()` is true exactly when `max_speed == 0`; a parked car that satisfies
`0 ≤ cur_speed ≤ get_max_speed()` has `cur_speed == 0`, so `is_stopped()` is true; and
`stop()` on a car with `max_speed != 0` makes it stopped but not parked, `max_speed` being
unchanged. -/
theorem parked_iff_zero_max_speed (c : car_t) :
    (c.is_parked = true ↔ c.max_speed = 0) ∧
    (c.is_parked = true → c.speed_in_range → c.cur_speed = 0 ∧ c.is_stopped = true) ∧
    (c.max_speed ≠ 0 →
      c.stop.is_stopped = true ∧ c.stop.is_parked = false ∧ c.stop.max_speed = c.max_speed) := by
  refine ⟨by simp [car_t.is_parked], ?_, ?_⟩
  · intro hp hinv
    have hm : c.max_speed = 0 := by simpa [car_t.is_parked] using hp
    obtain ⟨h0, h1⟩ := hinv
    have hE : c.get_max_speed = 0 := by simp [car_t.get_max_speed, hm]
    have hc : c.cur_speed = 0 := le_antisymm (hE ▸ h1) h0
    exact ⟨hc, by simp [car_t.is_stopped, hc]⟩
  · intro hm
    exact ⟨by simp [car_t.is_stopped, car_t.stop], by simp [car_t.is_parked, car_t.stop, hm], rfl⟩

/-- Instance of C12: the parked `parked_tunnel_car` is stopped, and stopping `sample_car`
(`max_speed = 3`) leaves it not parked. -/
theorem parked_iff_zero_max_speed_witness :
    (parked_tunnel_car.cur_speed = 0 ∧ parked_tunnel_car.is_stopped = true) ∧
    (sample_car.stop.is_stopped = true ∧ sample_car.stop.is_parked = false ∧
      sample_car.stop.max_speed = sample_car.max_speed) :=
  ⟨(parked_iff_zero_max_speed parked_tunnel_car).2.1
      (by simp [car_t.is_parked, parked_tunnel_car, car_t.new])
      (by simp [car_t.speed_in_range, car_t.get_max_speed, parked_tunnel_car, car_t.new]),
   (parked_iff_zero_max_speed sample_car).2.2 (by simp [sample_car, car_t.new])⟩

/-- C13: a parked car (`max_speed == 0`) has `headlights_on()` false, whatever `in_tunnel`,
`height` and the time of day (the result of `is_night`) are. -/
theorem parked_car_headlights_off (fract : ℚ → ℚ) (is_night : ℚ → Bool) (c : car_t)
    (hp : c.max_speed = 0) :
    c.headlights_on fract is_night = false := by
  simp [car_t.headlights_on, car_t.is_parked, hp]

/-- Instance of C13: `parked_tunnel_car` at night, with `fract` the fractional part. -/
theorem parked_car_headlights_off_witness :
    parked_tunnel_car.max_speed = 0 ∧
    parked_tunnel_car.headlights_on Int.fract (fun _ => true) = false :=
  ⟨rfl, parked_car_headlights_off Int.fract (fun _ => true) parked_tunnel_car rfl⟩

/-- C14, as stated, fails: `parked_tunnel_car` is in a tunnel and its headlights are off,
even at night. -/
theorem tunnel_headlights_counterexample :
    parked_tunnel_car.in_tunnel = true ∧
    parked_tunnel_car.headlights_on Int.fract (fun _ => true) = false := by
  refine ⟨rfl, ?_⟩
  simp [car_t.headlights_on, car_t.is_parked, parked_tunnel_car, car_t.new]

/-- C14, amended: a car that is in a tunnel and is not parked (`max_speed != 0`) has
`headlights_on()` true, whatever the time of day (the result of `is_night`) and its other
fields are. -/
theorem tunnel_headlights_on_unless_parked (fract : ℚ → ℚ) (is_night : ℚ → Bool) (c : car_t)
    (ht : c.in_tunnel = true) (hm : c.max_speed ≠ 0) :
    c.headlights_on fract is_night = true := by
  simp [car_t.headlights_on, car_t.is_parked, ht, hm]

/-- Instance of C14 amended: `moving_tunnel_car` by day, with `fract` the fractional part. -/
theorem tunnel_headlights_on_unless_parked_witness :
    moving_tunnel_car.in_tunnel = true ∧ moving_tunnel_car.max_speed ≠ 0 ∧
    moving_tunnel_car.headlights_on Int.fract (fun _ => false) = true :=
  ⟨rfl, by simp [moving_tunnel_car, sample_car, car_t.new],
    tunnel_headlights_on_unless_parked Int.fract (fun _ => false) moving_tunnel_car rfl
      (by simp [moving_tunnel_car, sample_car, car_t.new])⟩

/-! ## Theorems about the blocked flags, road types and index encoding -/

/-- C15: for a stoplight (its `blocked` array has 4 entries, as every constructed one) and
every `(dim, dir)`, the index `2*dim + dir` is within the array; after
`mark_blocked(dim, dir)`, `is_blocked(dim, dir)` is true, `is_blocked(d2, r2)` is unchanged
for each other pair, and the phase, phase timer, waiting masks and every other field are
unchanged; a second `mark_blocked(dim, dir)` changes nothing further. -/
theorem mark_blocked_sets_one_flag (s : stoplight_t) (dim dir : Bool)
    (hlen : s.blocked.length = 4) :
    (∀ b : Bool, (stoplight_t.new b).blocked.length = 4) ∧
    2 * dim.toNat + dir.toNat < s.blocked.length ∧
    (s.mark_blocked dim dir).is_blocked dim dir = some true ∧
    (∀ d2 r2 : Bool, (d2, r2) ≠ (dim, dir) →
      (s.mark_blocked dim dir).is_blocked d2 r2 = s.is_blocked d2 r2 ∧
      (s.is_blocked d2 r2).isSome = true) ∧
    s.mark_blocked dim dir = { s with blocked := (s.mark_blocked dim dir).blocked } ∧
    ((s.mark_blocked dim dir).cur_state = s.cur_state ∧
      (s.mark_blocked dim dir).cur_state_ticks = s.cur_state_ticks ∧
      (s.mark_blocked dim dir).car_waiting_sr = s.car_waiting_sr ∧
      (s.mark_blocked dim dir).car_waiting_left = s.car_waiting_left) ∧
    (s.mark_blocked dim dir).blocked.length = 4 ∧
    (s.mark_blocked dim dir).mark_blocked dim dir = s.mark_blocked dim dir := by
  obtain ⟨nc, cn, cur, acr, tk, wsr, wl, bl⟩ := s
  simp only at hlen
  match bl, hlen with
  | [b0, b1, b2, b3], _ =>
    refine ⟨by intro b; cases b <;> rfl, ?_, ?_, ?_, rfl, ⟨rfl, rfl, rfl, rfl⟩, ?_, ?_⟩
    · cases dim <;> cases dir <;> simp
    · cases dim <;> cases dir <;> simp [mark_blocked, is_blocked]
    · intro d2 r2 hne
      cases dim <;> cases dir <;> cases d2 <;> cases r2 <;>
        simp_all [mark_blocked, is_blocked]
    · cases dim <;> cases dir <;> simp [mark_blocked]
    · cases dim <;> cases dir <;> simp [mark_blocked]

/-- Instance of C15 at `sample_light`, marking the approach `(dim, dir) = (1, 0)`. -/
theorem mark_blocked_sets_one_flag_witness :
    sample_light.blocked.length = 4 ∧
    (sample_light.mark_blocked true false).is_blocked true false = some true ∧
    (sample_light.mark_blocked true false).is_blocked false true =
      sample_light.is_blocked false true :=
  ⟨by decide, (mark_blocked_sets_one_flag sample_light true false (by decide)).2.2.1,
    ((mark_blocked_sets_one_flag sample_light true false (by decide)).2.2.2.1
      false true (by decide)).1⟩

/-- C16: `get_isec_type()` succeeds exactly when `cur_road_type` is one of `TYPE_ISEC2`,
`TYPE_ISEC3`, `TYPE_ISEC4`, which is exactly when `in_isect()` is true, and then returns
`cur_road_type - TYPE_ISEC2`, a value in `{0, 1, 2}`; for every other road type (plot, road
segment, parking lot, tracks, or a value `≥ NUM_RD_TYPES`) the assertion fails. -/
theorem get_isec_type_iff_in_isect (c : car_t) :
    (c.in_isect = true ↔
      c.cur_road_type = TYPE_ISEC2 ∨ c.cur_road_type = TYPE_ISEC3 ∨
        c.cur_road_type = TYPE_ISEC4) ∧
    (c.get_isec_type.isSome = true ↔ c.in_isect = true) ∧
    (c.in_isect = true →
      c.get_isec_type = some (c.cur_road_type - TYPE_ISEC2) ∧
      c.cur_road_type - TYPE_ISEC2 ∈ [0, 1, 2] ∧
      c.cur_road_type - TYPE_ISEC2 + TYPE_ISEC2 = c.cur_road_type) ∧
    (c.cur_road_type = TYPE_PLOT ∨ c.cur_road_type = TYPE_RSEG ∨
        c.cur_road_type = TYPE_PARK_LOT ∨ c.cur_road_type = TYPE_TRACKS ∨
        c.cur_road_type ≥ NUM_RD_TYPES →
      c.get_isec_type = none) := by
  have hin : c.in_isect = true ↔
      c.cur_road_type = TYPE_ISEC2 ∨ c.cur_road_type = TYPE_ISEC3 ∨
        c.cur_road_type = TYPE_ISEC4 := by
    simp only [car_t.in_isect, is_isect, TYPE_ISEC2, TYPE_ISEC3, TYPE_ISEC4, Bool.and_eq_true,
      decide_eq_true_eq]
    omega
  refine ⟨hin, ?_, ?_, ?_⟩
  · unfold car_t.get_isec_type
    split <;> simp_all
  · intro h
    refine ⟨by simp [car_t.get_isec_type, h], ?_, ?_⟩
    · rcases hin.mp h with h2 | h3 | h4
      · rw [h2]; decide
      · rw [h3]; decide
      · rw [h4]; decide
    · have := hin.mp h
      simp only [TYPE_ISEC2, TYPE_ISEC3, TYPE_ISEC4] at this ⊢
      omega
  · intro h
    have hn : ¬ (c.in_isect = true) := by
      rw [hin]
      simp only [TYPE_PLOT, TYPE_RSEG, TYPE_PARK_LOT, TYPE_TRACKS, NUM_RD_TYPES, TYPE_ISEC2,
        TYPE_ISEC3, TYPE_ISEC4] at h ⊢
      omega
    simp [car_t.get_isec_type, hn]

/-- Instance of C16: a car in a 4-way intersection has type 2, a car on a road segment
fails the assertion. -/
theorem get_isec_type_iff_in_isect_witness :
    ({ sample_car with cur_road_type := TYPE_ISEC4 } : car_t).get_isec_type =
      some (TYPE_ISEC4 - TYPE_ISEC2) ∧
    sample_car.get_isec_type = none :=
  ⟨((get_isec_type_iff_in_isect { sample_car with cur_road_type := TYPE_ISEC4 }).2.2.1
      (by decide)).1,
   (get_isec_type_iff_in_isect sample_car).2.2.2 (Or.inr (Or.inl (by decide)))⟩

/-- C18: `is_global_conn_int()` is true exactly when at least one of the four `rix_xy`
entries is negative; it is false when all four are non-negative. -/
theorem global_conn_int_iff_negative_rix (r : road_isec_t) :
    (r.is_global_conn_int = true ↔ ∃ i : Fin 4, r.rix_xy i < 0) ∧
    ((∀ i : Fin 4, 0 ≤ r.rix_xy i) → r.is_global_conn_int = false) := by
  have hiff : r.is_global_conn_int = true ↔ ∃ i : Fin 4, r.rix_xy i < 0 := by
    simp only [road_isec_t.is_global_conn_int, Bool.or_eq_true, decide_eq_true_eq]
    constructor
    · rintro (((h | h) | h) | h)
      · exact ⟨0, h⟩
      · exact ⟨1, h⟩
      · exact ⟨2, h⟩
      · exact ⟨3, h⟩
    · rintro ⟨i, hi⟩
      fin_cases i
      · exact Or.inl (Or.inl (Or.inl hi))
      · exact Or.inl (Or.inl (Or.inr hi))
      · exact Or.inl (Or.inr hi)
      · exact Or.inr hi
  refine ⟨hiff, fun hall => ?_⟩
  cases hg : r.is_global_conn_int
  · rfl
  · obtain ⟨i, hi⟩ := hiff.mp hg
    exact absurd (hall i) (not_le.mpr hi)

/-- Instance of C18: `sample_isec` has a negative north entry and is a global connector
intersection; with all entries 5 it is not. -/
theorem global_conn_int_iff_negative_rix_witness :
    sample_isec.is_global_conn_int = true ∧
    ({ sample_isec with rix_xy := fun _ => 5 } : road_isec_t).is_global_conn_int = false :=
  ⟨(global_conn_int_iff_negative_rix sample_isec).1.mpr ⟨3, by decide⟩,
   (global_conn_int_iff_negative_rix { sample_isec with rix_xy := fun _ => 5 }).2
      (fun _ => by norm_num)⟩

/-- C20: negative-index encoding round trip on 32-bit integers. For every unsigned
`ix < 2^31 - 1`, `encode_neg_ix(ix)` is `-(ix+1)` without wrap-around, strictly negative
(`0` encodes to `-1`), and `decode_neg_ix(encode_neg_ix(ix)) == ix`; `encode_neg_ix` is
injective on that range; for every negative `int` `i > INT_MIN`, `decode_neg_ix(i)` succeeds
with a value whose encoding is `i`; and `decode_neg_ix` fails its assertion on every
non-negative argument. -/
theorem neg_ix_round_trip (ix iy : Nat) (i : Int) :
    encode_neg_ix 0 = -1 ∧
    (ix < 2 ^ 31 - 1 →
      encode_neg_ix ix < 0 ∧ encode_neg_ix ix = -((ix : Int) + 1) ∧
      decode_neg_ix (encode_neg_ix ix) = some ix) ∧
    (ix < 2 ^ 31 - 1 → iy < 2 ^ 31 - 1 → encode_neg_ix ix = encode_neg_ix iy → ix = iy) ∧
    (-(2 ^ 31) < i → i < 0 →
      ∃ u : Nat, decode_neg_ix i = some u ∧ (u : Int) = -(i + 1) ∧ u < 2 ^ 31 - 1 ∧
        encode_neg_ix u = i) ∧
    (0 ≤ i → decode_neg_ix i = none) := by
  have henc : ∀ n : Nat, n < 2 ^ 31 - 1 → encode_neg_ix n = -((n : Int) + 1) := by
    intro n hn
    simp only [encode_neg_ix, wrap_int32]
    norm_num at hn
    omega
  have hdec : ∀ j : Int, -(2 ^ 31) < j → j < 0 →
      decode_neg_ix j = some (-(j + 1)).toNat := by
    intro j hlo hneg
    simp only [decode_neg_ix, wrap_int32, wrap_uint32, if_pos hneg]
    norm_num at hlo
    congr 1
    omega
  refine ⟨by decide, ?_, ?_, ?_, ?_⟩
  · intro hix
    have he := henc ix hix
    norm_num at hix
    refine ⟨by omega, he, ?_⟩
    have hback : (-(-((ix : Int) + 1) + 1)).toNat = ix := by omega
    rw [he, hdec _ (by norm_num; omega) (by omega), hback]
  · intro hix hiy heq
    rw [henc ix hix, henc iy hiy] at heq
    omega
  · intro hlo hneg
    refine ⟨(-(i + 1)).toNat, hdec i hlo hneg, ?_, ?_, ?_⟩
    · omega
    · norm_num at hlo ⊢
      omega
    · have hu : (-(i + 1)).toNat < 2 ^ 31 - 1 := by
        norm_num at hlo ⊢
        omega
      rw [henc _ hu]
      omega
  · intro hnn
    simp [decode_neg_ix, not_lt.mpr hnn]

/-- Instance of C20: index 7 encodes to -8, which decodes back to 7; -8 round-trips; and
decoding 3 fails. -/
theorem neg_ix_round_trip_witness :
    (encode_neg_ix 7 < 0 ∧ encode_neg_ix 7 = -((7 : Int) + 1) ∧
      decode_neg_ix (encode_neg_ix 7) = some 7) ∧
    (∃ u : Nat, decode_neg_ix (-8) = some u ∧ (u : Int) = -(-8 + 1) ∧ u < 2 ^ 31 - 1 ∧
      encode_neg_ix u = -8) ∧
    decode_neg_ix 3 = none :=
  ⟨(neg_ix_round_trip 7 9 (-8)).2.1 (by norm_num),
   (neg_ix_round_trip 7 9 (-8)).2.2.2.1 (by norm_num) (by norm_num),
   (neg_ix_round_trip 7 9 3).2.2.2.2 (by norm_num)⟩

/-! ## Further theorems about the phase masks, the turn tables and car orientation -/

/-- C21: no perpendicular greens. In every phase `i < 6` the directions selected by
`st_r_orient_masks[i]`, and those selected by `left_orient_masks[i]`, lie on a single axis:
the mask has no bit of `{W=1, E=2}` or no bit of `{S=4, N=8}`, so no east/west approach
`d` and north/south approach `e` are both permitted in the phase. -/
theorem no_perpendicular_greens (i : Nat) (hi : i < NUM_STATE) :
    ∃ r l, st_r_orient_masks[i]? = some r ∧ left_orient_masks[i]? = some l ∧
      (r &&& 3 = 0 ∨ r &&& 12 = 0) ∧ (l &&& 3 = 0 ∨ l &&& 12 = 0) ∧
      (∀ d, d < 2 → ∀ e, 2 ≤ e → ¬ (r.testBit d = true ∧ r.testBit e = true)) ∧
      (∀ d, d < 2 → ∀ e, 2 ≤ e → ¬ (l.testBit d = true ∧ l.testBit e = true)) := by
  have key : ∀ m : Nat, m < 16 → (m &&& 3 = 0 ∨ m &&& 12 = 0) →
      ∀ d, d < 2 → ∀ e, 2 ≤ e → ¬ (m.testBit d = true ∧ m.testBit e = true) := by
    intro m hm hax d hd e he
    by_cases he4 : e < 4
    · revert hax
      interval_cases m <;> interval_cases d <;> interval_cases e <;> decide
    · intro h
      have hlt : m < 2 ^ e :=
        lt_of_lt_of_le hm (by
          have : (2 : Nat) ^ 4 ≤ 2 ^ e := Nat.pow_le_pow_right (by decide) (by omega)
          simpa using this)
      rw [Nat.testBit_lt_two_pow hlt] at h
      exact absurd h.2 (by decide)
  simp only [NUM_STATE] at hi
  interval_cases i
  · exact ⟨2, 2, rfl, rfl, by decide, by decide, key 2 (by decide) (by decide),
      key 2 (by decide) (by decide)⟩
  · exact ⟨3, 0, rfl, rfl, by decide, by decide, key 3 (by decide) (by decide),
      key 0 (by decide) (by decide)⟩
  · exact ⟨1, 1, rfl, rfl, by decide, by decide, key 1 (by decide) (by decide),
      key 1 (by decide) (by decide)⟩
  · exact ⟨8, 8, rfl, rfl, by decide, by decide, key 8 (by decide) (by decide),
      key 8 (by decide) (by decide)⟩
  · exact ⟨12, 0, rfl, rfl, by decide, by decide, key 12 (by decide) (by decide),
      key 0 (by decide) (by decide)⟩
  · exact ⟨4, 4, rfl, rfl, by decide, by decide, key 4 (by decide) (by decide),
      key 4 (by decide) (by decide)⟩

/-- Instance of C21 at phase 4 (`NGSG`): mask 12 selects only north and south. -/
theorem no_perpendicular_greens_witness :
    st_r_orient_masks[4]? = some 12 ∧
    ∃ r l, st_r_orient_masks[4]? = some r ∧ left_orient_masks[4]? = some l ∧
      (r &&& 3 = 0 ∨ r &&& 12 = 0) ∧ (l &&& 3 = 0 ∨ l &&& 12 = 0) ∧
      (∀ d, d < 2 → ∀ e, 2 ≤ e → ¬ (r.testBit d = true ∧ r.testBit e = true)) ∧
      (∀ d, d < 2 → ∀ e, 2 ≤ e → ¬ (l.testBit d = true ∧ l.testBit e = true)) :=
  ⟨rfl, no_perpendicular_greens 4 (by decide)⟩

/-- C22: turn-table algebra. `to_left` and `to_right` are rearrangements of `0, 1, 2, 3`;
for every `d < 4` they are inverse to each other (`to_right[to_left[d]] == d ==
to_left[to_right[d]]`), the same turn twice is the opposite way (`to_left[to_left[d]] ==
other_lane[d] == to_right[to_right[d]]`), four equal turns are the identity, a single turn
changes the axis (`to_left[d]/2 != d/2`, `to_right[d]/2 != d/2`), and `other_lane[d]` keeps
the axis and flips the direction bit. -/
theorem turn_table_algebra (d : Nat) (hd : d < 4) :
    to_left.Perm [0, 1, 2, 3] ∧ to_right.Perm [0, 1, 2, 3] ∧
    ∃ l r o, to_left[d]? = some l ∧ to_right[d]? = some r ∧ other_lane[d]? = some o ∧
      to_right[l]? = some d ∧ to_left[r]? = some d ∧
      to_left[l]? = some o ∧ to_right[r]? = some o ∧
      to_left[o]? = some r ∧ to_right[o]? = some l ∧
      l / 2 ≠ d / 2 ∧ r / 2 ≠ d / 2 ∧ o / 2 = d / 2 ∧ o % 2 = 1 - d % 2 := by
  refine ⟨by decide, by decide, ?_⟩
  interval_cases d
  · exact ⟨2, 3, 1, rfl, rfl, rfl, rfl, rfl, rfl, rfl, rfl, rfl, by decide, by decide,
      by decide, by decide⟩
  · exact ⟨3, 2, 0, rfl, rfl, rfl, rfl, rfl, rfl, rfl, rfl, rfl, by decide, by decide,
      by decide, by decide⟩
  · exact ⟨1, 0, 3, rfl, rfl, rfl, rfl, rfl, rfl, rfl, rfl, rfl, by decide, by decide,
      by decide, by decide⟩
  · exact ⟨0, 1, 2, rfl, rfl, rfl, rfl, rfl, rfl, rfl, rfl, rfl, by decide, by decide,
      by decide, by decide⟩

/-- Instance of C22 at `d = 2` (South): left leads to 1 (East), right to 0 (West), and the
opposite lane is 3 (North). -/
theorem turn_table_algebra_witness :
    to_left[2]? = some 1 ∧ to_right[2]? = some 0 ∧
    ∃ l r o, to_left[2]? = some l ∧ to_right[2]? = some r ∧ other_lane[2]? = some o ∧
      to_right[l]? = some 2 ∧ to_left[r]? = some 2 ∧
      to_left[l]? = some o ∧ to_right[r]? = some o ∧
      to_left[o]? = some r ∧ to_right[o]? = some l ∧
      l / 2 ≠ 2 / 2 ∧ r / 2 ≠ 2 / 2 ∧ o / 2 = 2 / 2 ∧ o % 2 = 1 - 2 % 2 :=
  ⟨rfl, rfl, (turn_table_algebra 2 (by decide)).2.2⟩

/-- C23: no approach is permanently red. With direction bits `W = 1<<0`, `E = 1<<1`,
`S = 1<<2`, `N = 1<<3`, the phases in which `st_r_orient_masks` selects a direction are
exactly two consecutive ones (E: 0,1; W: 1,2; N: 3,4; S: 4,5), `left_orient_masks` selects
each direction in exactly one phase (E: 0, W: 2, N: 3, S: 5), and the bitwise OR of each
table over all phases is 15. -/
theorem every_direction_gets_green :
    (List.range NUM_STATE).filter (fun i => (st_r_orient_masks.getD i 0).testBit 1) = [0, 1] ∧
    (List.range NUM_STATE).filter (fun i => (st_r_orient_masks.getD i 0).testBit 0) = [1, 2] ∧
    (List.range NUM_STATE).filter (fun i => (st_r_orient_masks.getD i 0).testBit 3) = [3, 4] ∧
    (List.range NUM_STATE).filter (fun i => (st_r_orient_masks.getD i 0).testBit 2) = [4, 5] ∧
    (List.range NUM_STATE).filter (fun i => (left_orient_masks.getD i 0).testBit 1) = [0] ∧
    (List.range NUM_STATE).filter (fun i => (left_orient_masks.getD i 0).testBit 0) = [2] ∧
    (List.range NUM_STATE).filter (fun i => (left_orient_masks.getD i 0).testBit 3) = [3] ∧
    (List.range NUM_STATE).filter (fun i => (left_orient_masks.getD i 0).testBit 2) = [5] ∧
    st_r_orient_masks.length = NUM_STATE ∧ left_orient_masks.length = NUM_STATE ∧
    st_r_orient_masks.foldl (fun a m => a ||| m) 0 = 15 ∧
    left_orient_masks.foldl (fun a m => a ||| m) 0 = 15 := by
  decide

/-- C24: for every car, `get_orient() == 2*dim + dir` and `get_orient_in_isec()` are both in
`0..3`, they differ, `get_orient_in_isec() == other_lane[get_orient()]` (same axis, opposite
direction), and inverting again gives back `get_orient()`. -/
theorem orient_in_isec_is_other_lane (c : car_t) :
    c.get_orient = 2 * c.dim.toNat + c.dir.toNat ∧
    c.get_orient < 4 ∧ c.get_orient_in_isec < 4 ∧
    c.get_orient ≠ c.get_orient_in_isec ∧
    other_lane[c.get_orient]? = some c.get_orient_in_isec ∧
    c.get_orient_in_isec / 2 = c.get_orient / 2 ∧
    c.get_orient_in_isec % 2 = 1 - c.get_orient % 2 ∧
    other_lane[c.get_orient_in_isec]? = some c.get_orient ∧
    ({ c with dir := !c.dir } : car_t).get_orient_in_isec = c.get_orient := by
  obtain ⟨bc, pbc, dim, dir, sl, ec, tn, dv, ds, rt, ci, td, ft, mi, cc, cr, cs, dc, di, h, dz,
    rz, tv, sp, ms, wp, ws, cf⟩ := c
  cases dim <;> cases dir <;>
    simp [car_t.get_orient, car_t.get_orient_in_isec, other_lane]

/-! ## Theorems about the OBJ file reader -/

/-- A positive index is normalised to `ix - 1` when `ix ≤ vect_sz` and fails otherwise. -/
theorem normalize_index_pos (ix : Int) (n : Nat) (hpos : 0 < ix) (hhi : ix < 2 ^ 31) :
    normalize_index ix n = if ix ≤ n then some (ix - 1) else none := by
  norm_num at hhi
  have h0 : ¬ ix = 0 := by omega
  have hneg : ¬ ix < 0 := by omega
  have hw : wrap_int32 (ix - 1) = ix - 1 := by
    simp only [wrap_int32]
    omega
  simp only [normalize_index, if_neg h0, if_neg hneg, hw, wrap_uint32]
  by_cases hle : ix ≤ n
  · rw [if_pos hle, if_pos (by omega)]
  · rw [if_neg hle, if_neg (by omega)]

/-- A negative index is normalised to `vect_sz + ix` when `-vect_sz ≤ ix` and fails
otherwise. -/
theorem normalize_index_neg (ix : Int) (n : Nat) (hn : n < 2 ^ 31) (hneg : ix < 0)
    (hlo : -(2 ^ 31) ≤ ix) :
    normalize_index ix n = if -(n : Int) ≤ ix then some (n + ix) else none := by
  norm_num at hn hlo
  have h0 : ¬ ix = 0 := by omega
  have hw : wrap_int32 (((wrap_uint32 ix + n) % 4294967296 : Nat) : Int) = n + ix := by
    simp only [wrap_int32, wrap_uint32]
    omega
  simp only [normalize_index, if_neg h0, if_pos hneg, hw]
  by_cases hle : -(n : Int) ≤ ix
  · rw [if_pos hle, if_pos (by simp only [wrap_uint32]; omega)]
  · rw [if_neg hle, if_neg (by simp only [wrap_uint32]; omega)]

/-- C25: OBJ index normalisation on 32-bit integers. For a vector size `n < 2^31` and an
`int` `ix`, `normalize_index(ix, n)` passes its assertions exactly when `1 ≤ ix ≤ n` or
`-n ≤ ix ≤ -1`; a positive `ix` becomes `ix - 1` and a negative `ix` becomes `n + ix` (so
`-1` is the last element and `-n` the first); the result is always in `0..n-1`; and
`ix == 0`, `ix > n`, `ix < -n`, or any `ix` with `n == 0`, fails an assertion. -/
theorem normalize_index_accepts_valid_range (ix : Int) (n : Nat) (hn : n < 2 ^ 31)
    (hlo : -(2 ^ 31) ≤ ix) (hhi : ix < 2 ^ 31) :
    ((normalize_index ix n).isSome = true ↔
      (1 ≤ ix ∧ ix ≤ n) ∨ (-(n : Int) ≤ ix ∧ ix ≤ -1)) ∧
    (1 ≤ ix → ix ≤ n → normalize_index ix n = some (ix - 1)) ∧
    (-(n : Int) ≤ ix → ix ≤ -1 → normalize_index ix n = some (n + ix)) ∧
    (∀ r, normalize_index ix n = some r → 0 ≤ r ∧ r < n) ∧
    (ix = 0 ∨ (n : Int) < ix ∨ ix < -(n : Int) → normalize_index ix n = none) ∧
    (n = 0 → normalize_index ix n = none) := by
  rcases lt_trichotomy ix 0 with hneg | hzero | hpos
  · have hN := normalize_index_neg ix n hn hneg hlo
    by_cases hle : -(n : Int) ≤ ix
    · rw [if_pos hle] at hN
      refine ⟨?_, ?_, ?_, ?_, ?_, ?_⟩
      · rw [hN]; simp; omega
      · intro h; omega
      · intro _ _; exact hN
      · intro r hr
        rw [hN] at hr
        cases hr
        omega
      · intro h; omega
      · intro h; omega
    · rw [if_neg hle] at hN
      refine ⟨?_, ?_, ?_, ?_, ?_, ?_⟩
      · rw [hN]; simp; omega
      · intro h; omega
      · intro h; omega
      · intro r hr
        rw [hN] at hr
        cases hr
      · intro _; exact hN
      · intro _; exact hN
  · have hN : normalize_index ix n = none := by simp [normalize_index, hzero]
    refine ⟨?_, ?_, ?_, ?_, ?_, ?_⟩
    · rw [hN]; simp; omega
    · intro h; omega
    · intro _ h; omega
    · intro r hr
      rw [hN] at hr
      cases hr
    · intro _; exact hN
    · intro _; exact hN
  · have hN := normalize_index_pos ix n hpos hhi
    by_cases hle : ix ≤ n
    · rw [if_pos hle] at hN
      refine ⟨?_, ?_, ?_, ?_, ?_, ?_⟩
      · rw [hN]; simp; omega
      · intro _ _; exact hN
      · intro _ h; omega
      · intro r hr
        rw [hN] at hr
        cases hr
        omega
      · intro h; omega
      · intro h; omega
    · rw [if_neg hle] at hN
      refine ⟨?_, ?_, ?_, ?_, ?_, ?_⟩
      · rw [hN]; simp; omega
      · intro _ h; omega
      · intro h; omega
      · intro r hr
        rw [hN] at hr
        cases hr
      · intro _; exact hN
      · intro _; exact hN

/-- Instance of C25 with 5 vertices: index `-1` is the last element 4, index `-5` and index
`1` are the first element 0, and index 6 fails. -/
theorem normalize_index_accepts_valid_range_witness :
    normalize_index (-1) 5 = some 4 ∧
    normalize_index (-5) 5 = some 0 ∧
    normalize_index 1 5 = some 0 ∧
    normalize_index 6 5 = none :=
  ⟨(normalize_index_accepts_valid_range (-1) 5 (by norm_num) (by norm_num) (by norm_num)).2.2.1
      (by norm_num) (by norm_num),
   (normalize_index_accepts_valid_range (-5) 5 (by norm_num) (by norm_num) (by norm_num)).2.2.1
      (by norm_num) (by norm_num),
   (normalize_index_accepts_valid_range 1 5 (by norm_num) (by norm_num) (by norm_num)).2.1
      (by norm_num) (by norm_num),
   (normalize_index_accepts_valid_range 6 5 (by norm_num) (by norm_num)
      (by norm_num)).2.2.2.2.1 (Or.inr (Or.inl (by norm_num)))⟩

/-- Loop invariant of `get_path`: the first `pos` characters of `fn` split into the value
returned by the loop started at `pos`, which is empty or ends in a separator, and a rest
without separators. -/
theorem get_path_loop_split (fn : List Char) (pos : Nat) (hpos : pos ≤ fn.length) :
    ∃ r, fn.take pos = get_path_loop fn pos ++ r ∧ (∀ c ∈ r, c ≠ '\\' ∧ c ≠ '/') ∧
      (get_path_loop fn pos = [] ∨
        ∃ q s, get_path_loop fn pos = q ++ [s] ∧ (s = '\\' ∨ s = '/')) := by
  induction pos with
  | zero => exact ⟨[], by simp [get_path_loop], by simp, Or.inl rfl⟩
  | succ pos ih =>
    have hlt : pos < fn.length := hpos
    have hget : fn[pos]? = some fn[pos] := List.getElem?_eq_getElem hlt
    have htake : fn.take (pos + 1) = fn.take pos ++ [fn[pos]] := by
      rw [List.take_succ, hget]
      rfl
    by_cases hsep : fn[pos] = '\\' ∨ fn[pos] = '/'
    · have hloop : get_path_loop fn (pos + 1) = fn.take (pos + 1) := by
        simp [get_path_loop, hget, hsep]
      exact ⟨[], by simp [hloop], by simp,
        Or.inr ⟨fn.take pos, fn[pos], by rw [hloop, htake], hsep⟩⟩
    · have hloop : get_path_loop fn (pos + 1) = get_path_loop fn pos := by
        simp [get_path_loop, hget, hsep]
      obtain ⟨r, hr, hns, hlast⟩ := ih (Nat.le_of_lt hlt)
      refine ⟨r ++ [fn[pos]], ?_, ?_, ?_⟩
      · rw [hloop, htake, hr, List.append_assoc]
      · intro c hc
        rcases List.mem_append.mp hc with hc | hc
        · exact hns c hc
        · rw [List.mem_singleton] at hc
          subst hc
          exact not_or.mp hsep
      · rw [hloop]
        exact hlast

/-- A string that ends in a separator is its own path. -/
theorem get_path_of_ends_in_separator (q : List Char) (s : Char) (hs : s = '\\' ∨ s = '/') :
    get_path (q ++ [s]) = q ++ [s] := by
  have hlen : (q ++ [s]).length = q.length + 1 := by simp
  unfold get_path
  rw [hlen, get_path_loop]
  rcases hs with rfl | rfl <;> simp

/-- In `q ++ [s] ++ r` with `s` a separator and none in `r`, the last separator is at index
`q.length`. -/
theorem last_separator_index (q r : List Char) (s : Char) (hs : s = '\\' ∨ s = '/')
    (hns : ∀ c ∈ r, c ≠ '\\' ∧ c ≠ '/') (k : Nat) (c : Char)
    (hk : (q ++ [s] ++ r)[k]? = some c) (hc : c = '\\' ∨ c = '/')
    (hlater : ∀ j c2, k < j → (q ++ [s] ++ r)[j]? = some c2 → c2 ≠ '\\' ∧ c2 ≠ '/') :
    k = q.length := by
  have hsq : (q ++ [s] ++ r)[q.length]? = some s := by
    rw [List.append_assoc, List.getElem?_append_right (le_refl _)]
    simp
  rcases lt_trichotomy k q.length with hlt | heq | hgt
  · exact absurd hs (not_or.mpr (hlater q.length s hlt hsq))
  · exact heq
  · have hkr : (q ++ [s] ++ r)[k]? = r[k - (q.length + 1)]? := by
      rw [List.getElem?_append_right (by simp; omega)]
      simp
    rw [hkr] at hk
    have hmem : c ∈ r := List.mem_iff_getElem?.mpr ⟨_, hk⟩
    exact absurd hc (not_or.mpr (hns c hmem))

/-- C26: for every file name `fn`, `get_path(fn)` is a prefix of `fn`; it is empty or ends in
a `'/'` or `'\\'`, and the remainder of `fn` after it contains neither character, so it is
the prefix up to and including the last occurrence of `'/'` or `'\\'` (index `k`); it is the
empty string exactly when `fn` contains neither character; and
`get_path(get_path(fn)) == get_path(fn)`. -/
theorem get_path_is_prefix_through_last_separator (fn : List Char) :
    get_path fn <+: fn ∧
    get_path fn ++ fn.drop (get_path fn).length = fn ∧
    (∀ c ∈ fn.drop (get_path fn).length, c ≠ '\\' ∧ c ≠ '/') ∧
    (get_path fn = [] ∨ ∃ q s, get_path fn = q ++ [s] ∧ (s = '\\' ∨ s = '/')) ∧
    (∀ k c, fn[k]? = some c → (c = '\\' ∨ c = '/') →
      (∀ j c2, k < j → fn[j]? = some c2 → c2 ≠ '\\' ∧ c2 ≠ '/') →
      get_path fn = fn.take (k + 1)) ∧
    (get_path fn = [] ↔ ∀ c ∈ fn, c ≠ '\\' ∧ c ≠ '/') ∧
    get_path (get_path fn) = get_path fn := by
  obtain ⟨r, hr, hns, hlast⟩ := get_path_loop_split fn fn.length (le_refl _)
  rw [List.take_length] at hr
  change fn = get_path fn ++ r at hr
  change get_path fn = [] ∨ ∃ q s, get_path fn = q ++ [s] ∧ (s = '\\' ∨ s = '/') at hlast
  have hdrop : fn.drop (get_path fn).length = r := by
    have h := congrArg (List.drop (get_path fn).length) hr
    rw [List.drop_left] at h
    exact h
  have hempty : get_path fn = [] ↔ ∀ c ∈ fn, c ≠ '\\' ∧ c ≠ '/' := by
    constructor
    · intro he c hc
      rw [hr, he, List.nil_append] at hc
      exact hns c hc
    · intro hall
      rcases hlast with he | ⟨q, s, hq, hs⟩
      · exact he
      · have hmem : s ∈ fn := by
          rw [hr, hq]
          simp
        exact absurd hs (not_or.mpr (hall s hmem))
  refine ⟨⟨r, hr.symm⟩, ?_, ?_, hlast, ?_, hempty, ?_⟩
  · rw [hdrop]
    exact hr.symm
  · rw [hdrop]
    exact hns
  · intro k c hk hc hlater
    rcases hlast with he | ⟨q, s, hq, hs⟩
    · have hmem : c ∈ fn := List.mem_iff_getElem?.mpr ⟨k, hk⟩
      exact absurd hc (not_or.mpr (hempty.mp he c hmem))
    · have hfn : fn = q ++ [s] ++ r := by
        rw [← hq]
        exact hr
      have hkeq : k = q.length := by
        rw [hfn] at hk hlater
        exact last_separator_index q r s hs hns k c hk hc hlater
      have hlen : q.length + 1 = (q ++ [s]).length := by simp
      rw [hq, hkeq]
      conv_rhs => rw [hfn, hlen, List.take_left']
  · rcases hlast with he | ⟨q, s, hq, hs⟩
    · rw [he]
      rfl
    · rw [hq]
      exact get_path_of_ends_in_separator q s hs

/-- Instance of C26 at the file name `models/car\body.obj`: its last separator is the
backslash at index 10, and the path is the first 11 characters `models/car\`. -/
theorem get_path_is_prefix_through_last_separator_witness :
    get_path "models/car\\body.obj".toList = "models/car\\".toList ∧
    get_path "models/car\\body.obj".toList = "models/car\\body.obj".toList.take (10 + 1) :=
  ⟨by decide,
   (get_path_is_prefix_through_last_separator "models/car\\body.obj".toList).2.2.2.2.1
      10 '\\' (by decide) (by decide) (by
        intro j c2 hj hc2
        have hlt : j < 19 := by
          by_contra hge
          have hnone : "models/car\\body.obj".toList[j]? = none :=
            List.getElem?_eq_none (by simp; omega)
          rw [hnone] at hc2
          cases hc2
        interval_cases j <;> simp at hc2 <;> subst hc2 <;> decide)⟩

/-! ## Theorems about text vertices -/

/-- One character always contributes six vertices when it is drawn. -/
theorem gen_char_verts_length (quad_to_tris_ixs : Fin 6 → Fin 4) (pcd : per_char_data_t)
    (char_sz : ℚ) (column_dir line_dir cursor : point) :
    (gen_char_verts quad_to_tris_ixs pcd char_sz column_dir line_dir cursor).length = 6 := by
  simp [gen_char_verts]

/-- Drawing a character keeps the vertices already present and appends six vertices, or
none when the glyph width is 0. -/
theorem draw_char_appends (lookup_ascii : Char → per_char_data_t)
    (quad_to_tris_ixs : Fin 6 → Fin 4) (char_sz : ℚ) (column_dir line_dir : point) (c : Char)
    (cursor : point) (verts : List vert_tc_t) :
    ∃ added,
      (draw_char lookup_ascii quad_to_tris_ixs char_sz column_dir line_dir c cursor verts).2 =
        verts ++ added ∧
      added.length = 6 * (if (lookup_ascii c).width = 0 then 0 else 1) := by
  unfold draw_char
  by_cases hw : (lookup_ascii c).width = 0
  · exact ⟨[], by simp [hw], by simp [hw]⟩
  · exact ⟨gen_char_verts quad_to_tris_ixs (lookup_ascii c) char_sz column_dir line_dir cursor,
      by simp [hw], by simp [hw, gen_char_verts_length]⟩

/-- The loop of `gen_text_verts` keeps the vertices already present and appends six vertices
per drawn character of the remaining text, from any cursor and line start. -/
theorem gen_text_verts_loop_appends (lookup_ascii : Char → per_char_data_t)
    (quad_to_tris_ixs : Fin 6 → Fin 4) (char_sz : ℚ) (column_dir line_dir line_delta : point)
    (n : Nat) :
    ∀ (text : List Char), text.length ≤ n → ∀ (cursor line_start : point)
      (verts : List vert_tc_t),
      ∃ added,
        gen_text_verts_loop lookup_ascii quad_to_tris_ixs char_sz column_dir line_dir
          line_delta text cursor line_start verts = verts ++ added ∧
        added.length = 6 * spec_drawn_chars (fun c => (lookup_ascii c).width) text := by
  induction n with
  | zero =>
    intro text hlen cursor line_start verts
    have : text = [] := List.length_eq_zero.mp (Nat.le_zero.mp hlen)
    subst this
    exact ⟨[], by simp [gen_text_verts_loop], by simp [spec_drawn_chars]⟩
  | succ n ih =>
    intro text hlen cursor line_start verts
    match text, hlen with
    | [], _ => exact ⟨[], by simp [gen_text_verts_loop], by simp [spec_drawn_chars]⟩
    | [c], _ =>
      by_cases hnl : c = '\n'
      · exact ⟨[], by simp [gen_text_verts_loop, hnl], by simp [spec_drawn_chars, hnl]⟩
      · obtain ⟨added, ha, hl⟩ := draw_char_appends lookup_ascii quad_to_tris_ixs char_sz
          column_dir line_dir c cursor verts
        exact ⟨added, by simp only [gen_text_verts_loop, if_neg hnl]; exact ha,
          by simp only [spec_drawn_chars, if_neg hnl]; exact hl⟩
    | c :: c2 :: rest2, hlen =>
      have hlen1 : (c2 :: rest2).length ≤ n := by simpa using hlen
      have hlen2 : rest2.length ≤ n := by
        have h := hlen1
        simp only [List.length_cons] at h
        omega
      by_cases hnl : c = '\n'
      · obtain ⟨added, ha, hl⟩ := ih (c2 :: rest2) hlen1 (line_start.add line_delta)
          (line_start.add line_delta) verts
        exact ⟨added, by simp only [gen_text_verts_loop, if_pos hnl]; exact ha,
          by simp only [spec_drawn_chars, if_pos hnl]; exact hl⟩
      · by_cases hbs : c = '\\' ∧ c2 = 'n'
        · obtain ⟨added, ha, hl⟩ := ih rest2 hlen2 (line_start.add line_delta)
            (line_start.add line_delta) verts
          exact ⟨added, by simp only [gen_text_verts_loop, if_neg hnl, if_pos hbs]; exact ha,
            by simp only [spec_drawn_chars, if_neg hnl, if_pos hbs]; exact hl⟩
        · obtain ⟨a1, ha1, hl1⟩ := draw_char_appends lookup_ascii quad_to_tris_ixs char_sz
            column_dir line_dir c cursor verts
          obtain ⟨a2, ha2, hl2⟩ := ih (c2 :: rest2) hlen1
            (draw_char lookup_ascii quad_to_tris_ixs char_sz column_dir line_dir c cursor
              verts).1 line_start
            (draw_char lookup_ascii quad_to_tris_ixs char_sz column_dir line_dir c cursor
              verts).2
          refine ⟨a1 ++ a2, ?_, ?_⟩
          · simp only [gen_text_verts_loop, if_neg hnl, if_neg hbs]
            rw [ha2, ha1, List.append_assoc]
          · simp only [spec_drawn_chars, if_neg hnl, if_neg hbs]
            rw [List.length_append, hl1, hl2, Nat.mul_add]

/-- A text made only of line breaks has no drawn character. -/
theorem spec_drawn_chars_line_breaks (width : Char → ℚ) (toks : List (List Char))
    (h : ∀ t ∈ toks, t = ['\n'] ∨ t = ['\\', 'n']) :
    spec_drawn_chars width toks.flatten = 0 := by
  induction toks with
  | nil => simp [spec_drawn_chars]
  | cons t ts ih =>
    have hts := ih (fun t ht => h t (List.mem_cons_of_mem _ ht))
    rcases h t (List.mem_cons_self _ _) with ht | ht
    · subst ht
      rw [List.flatten_cons, List.singleton_append, spec_drawn_chars.eq_def]
      simpa using hts
    · subst ht
      rw [List.flatten_cons]
      simpa [spec_drawn_chars] using hts

/-- A character that opens no line break counts as drawn unless its glyph width is 0. -/
theorem spec_drawn_chars_cons (width : Char → ℚ) (c : Char) (rest : List Char)
    (hnl : c ≠ '\n') (hbs : ∀ rest2, rest = 'n' :: rest2 → c ≠ '\\') :
    spec_drawn_chars width (c :: rest) =
      (if width c = 0 then 0 else 1) + spec_drawn_chars width rest := by
  cases rest with
  | nil => simp [spec_drawn_chars, hnl]
  | cons c2 rest2 =>
    have hno : ¬ (c = '\\' ∧ c2 = 'n') := by
      rintro ⟨h1, h2⟩
      exact hbs rest2 (by rw [h2]) h1
    simp only [spec_drawn_chars, if_neg hnl, if_neg hno]

/-- C27: `gen_text_verts` leaves the vertices already in the output vector untouched and
appends exactly 6 vertices per drawn character and none for line breaks: the appended
vertices number 6 times the drawn characters; a newline character, and a backslash directly
followed by `n`, is consumed as one line break; a backslash that is last in the string or
not followed by `n` is drawn as an ordinary character; a character whose glyph width is 0
is skipped; and a string made only of line breaks appends nothing. -/
theorem gen_text_verts_six_per_drawn_char (lookup_ascii : Char → per_char_data_t)
    (quad_to_tris_ixs : Fin 6 → Fin 4) (verts : List vert_tc_t) (pos : point) (tsize : ℚ)
    (column_dir line_dir : point) (text : List Char) :
    (∃ added,
      gen_text_verts lookup_ascii quad_to_tris_ixs verts pos text tsize column_dir line_dir =
        verts ++ added ∧
      added.length = 6 * spec_drawn_chars (fun c => (lookup_ascii c).width) text) ∧
    (gen_text_verts lookup_ascii quad_to_tris_ixs verts pos ('\n' :: text) tsize column_dir
        line_dir).length =
      (gen_text_verts lookup_ascii quad_to_tris_ixs verts pos text tsize column_dir
        line_dir).length ∧
    (gen_text_verts lookup_ascii quad_to_tris_ixs verts pos ('\\' :: 'n' :: text) tsize
        column_dir line_dir).length =
      (gen_text_verts lookup_ascii quad_to_tris_ixs verts pos text tsize column_dir
        line_dir).length ∧
    (gen_text_verts lookup_ascii quad_to_tris_ixs verts pos ['\\'] tsize column_dir
        line_dir).length =
      verts.length + (if (lookup_ascii '\\').width = 0 then 0 else 6) ∧
    (∀ c, c ≠ '\n' → (∀ rest2, text = 'n' :: rest2 → c ≠ '\\') →
      (gen_text_verts lookup_ascii quad_to_tris_ixs verts pos (c :: text) tsize column_dir
          line_dir).length =
        (if (lookup_ascii c).width = 0 then 0 else 6) +
          (gen_text_verts lookup_ascii quad_to_tris_ixs verts pos text tsize column_dir
            line_dir).length) ∧
    (∀ toks : List (List Char), (∀ t ∈ toks, t = ['\n'] ∨ t = ['\\', 'n']) →
      gen_text_verts lookup_ascii quad_to_tris_ixs verts pos toks.flatten tsize column_dir
        line_dir = verts) := by
  have main : ∀ txt : List Char, ∃ added,
      gen_text_verts lookup_ascii quad_to_tris_ixs verts pos txt tsize column_dir line_dir =
        verts ++ added ∧
      added.length = 6 * spec_drawn_chars (fun c => (lookup_ascii c).width) txt := by
    intro txt
    exact gen_text_verts_loop_appends lookup_ascii quad_to_tris_ixs _ column_dir line_dir _
      txt.length txt (le_refl _) pos pos verts
  have len : ∀ txt : List Char,
      (gen_text_verts lookup_ascii quad_to_tris_ixs verts pos txt tsize column_dir
        line_dir).length =
      verts.length + 6 * spec_drawn_chars (fun c => (lookup_ascii c).width) txt := by
    intro txt
    obtain ⟨added, ha, hl⟩ := main txt
    rw [ha, List.length_append, hl]
  refine ⟨main text, ?_, ?_, ?_, ?_, ?_⟩
  · rw [len, len, spec_drawn_chars.eq_def]
    simp
  · rw [len, len]
    simp [spec_drawn_chars]
  · rw [len]
    simp only [spec_drawn_chars]
    split_ifs <;> simp_all
  · intro c hnl hbs
    rw [len, len, spec_drawn_chars_cons _ c text hnl hbs]
    split_ifs <;> omega
  · intro toks htoks
    obtain ⟨added, ha, hl⟩ := main toks.flatten
    rw [spec_drawn_chars_line_breaks _ toks htoks] at hl
    have hnil : added = [] := List.length_eq_zero.mp hl
    rw [ha, hnil, List.append_nil]

/-- Instance of C27 with the glyph table `sample_font`: the text of a newline followed by a
backslash and `n` appends nothing, and a backslash followed by `x` is drawn before `x`. -/
theorem gen_text_verts_six_per_drawn_char_witness :
    gen_text_verts sample_font sample_quad_ixs [] ⟨0, 0, 0⟩
      [['\n'], ['\\', 'n']].flatten 20 ⟨1, 0, 0⟩ ⟨0, 1, 0⟩ = [] ∧
    (gen_text_verts sample_font sample_quad_ixs [] ⟨0, 0, 0⟩ ('\\' :: ['x']) 20 ⟨1, 0, 0⟩
        ⟨0, 1, 0⟩).length =
      (if (sample_font '\\').width = 0 then 0 else 6) +
        (gen_text_verts sample_font sample_quad_ixs [] ⟨0, 0, 0⟩ ['x'] 20 ⟨1, 0, 0⟩
          ⟨0, 1, 0⟩).length :=
  ⟨(gen_text_verts_six_per_drawn_char sample_font sample_quad_ixs [] ⟨0, 0, 0⟩ 20 ⟨1, 0, 0⟩
      ⟨0, 1, 0⟩ []).2.2.2.2.2 [['\n'], ['\\', 'n']] (by simp),
   (gen_text_verts_six_per_drawn_char sample_font sample_quad_ixs [] ⟨0, 0, 0⟩ 20 ⟨1, 0, 0⟩
      ⟨0, 1, 0⟩ ['x']).2.2.2.2.1 '\\' (by decide) (by simp)⟩

/-! ## Theorems about binary32 rounding -/

/-- Rounding to nearest never exceeds an integer above the argument. -/
theorem round_half_even_le_int (y : ℚ) (n : ℤ) (h : y ≤ n) : round_half_even y ≤ n := by
  have hf : ⌊y⌋ ≤ n := by
    have := Int.floor_mono h
    rwa [Int.floor_intCast] at this
  have hfy : (⌊y⌋ : ℚ) ≤ y := Int.floor_le y
  have hstep : ¬ (y - ⌊y⌋ < 1 / 2) → ⌊y⌋ + 1 ≤ n := by
    intro hd
    have h1 : (⌊y⌋ : ℚ) < n := by linarith [not_lt.mp hd]
    have h2 : ⌊y⌋ < n := by exact_mod_cast h1
    omega
  unfold round_half_even
  split_ifs with h1 h2 h3
  · exact hf
  · exact hstep h1
  · exact hf
  · exact hstep h1

/-- Rounding to nearest never falls below an integer below the argument. -/
theorem int_le_round_half_even (y : ℚ) (n : ℤ) (h : (n : ℚ) ≤ y) : n ≤ round_half_even y := by
  have hf : n ≤ ⌊y⌋ := Int.le_floor.mpr h
  unfold round_half_even
  split_ifs <;> omega

/-- Rounding to nearest leaves an integer unchanged. -/
theorem round_half_even_int (n : ℤ) : round_half_even (n : ℚ) = n :=
  le_antisymm (round_half_even_le_int _ n (le_refl _)) (int_le_round_half_even _ n (le_refl _))

/-- Rounding to nearest gives the integer within less than one half of the argument. -/
theorem round_half_even_of_near (y : ℚ) (n : ℤ) (h : |y - n| < 1 / 2) :
    round_half_even y = n := by
  obtain ⟨h1, h2⟩ := abs_lt.mp h
  by_cases hge : (n : ℚ) ≤ y
  · have hfl : ⌊y⌋ = n := by
      rw [Int.floor_eq_iff]
      constructor
      · exact hge
      · linarith
    unfold round_half_even
    rw [hfl, if_pos (by linarith)]
  · have hfl : ⌊y⌋ = n - 1 := by
      rw [Int.floor_eq_iff]
      push_cast
      constructor
      · linarith
      · linarith [not_le.mp hge]
    unfold round_half_even
    rw [hfl]
    push_cast
    rw [if_neg (by linarith), if_pos (by linarith)]
    ring

namespace binary32

/-- Zero rounds to zero. -/
theorem round_rat_zero : round_rat 0 = 0 := by
  simp [round_rat, round_half_even]

end binary32

namespace binary32

/-- The binary exponent of a number between `2^k` and `2^(k+1)` is `k`. -/
theorem log_abs_eq (x : ℚ) (k : ℤ) (h1 : (2 : ℚ) ^ k ≤ |x|) (h2 : |x| < 2 ^ (k + 1)) :
    Int.log 2 |x| = k := by
  have hpos : 0 < |x| := lt_of_lt_of_le (zpow_pos (by norm_num) k) h1
  have hle : k ≤ Int.log 2 |x| :=
    (Int.zpow_le_iff_le_log (R := ℚ) (b := 2) (by norm_num) hpos).mp (by simpa using h1)
  have hlt : Int.log 2 |x| < k + 1 :=
    (Int.lt_zpow_iff_log_lt (R := ℚ) (b := 2) (by norm_num) hpos).mp (by simpa using h2)
  omega

/-- Evaluation of rounding in the normal range: for `2^k ≤ |x| < 2^(k+1)` with `k ≥ -126`,
`x` rounds to `n * 2^(k-23)` when `n` is within one half of `x / 2^(k-23)`. -/
theorem round_rat_eval (x : ℚ) (k n : ℤ) (h1 : (2 : ℚ) ^ k ≤ |x|) (h2 : |x| < 2 ^ (k + 1))
    (hk : -126 ≤ k) (hn : |x / 2 ^ (k - 23) - n| < 1 / 2) :
    round_rat x = n * 2 ^ (k - 23) := by
  have hq : quantum_exp x = k - 23 := by
    unfold quantum_exp
    rw [log_abs_eq x k h1 h2]
    exact max_eq_left (by omega)
  unfold round_rat
  rw [hq, round_half_even_of_near _ n hn]

/-- Evaluation of `round` in the normal range, when the rounded value does not overflow. -/
theorem round_eval (x : ℚ) (k n : ℤ) (h1 : (2 : ℚ) ^ k ≤ |x|) (h2 : |x| < 2 ^ (k + 1))
    (hk : -126 ≤ k) (hn : |x / 2 ^ (k - 23) - n| < 1 / 2)
    (hfin : |(n : ℚ) * 2 ^ (k - 23)| < 2 ^ 128) :
    round x = fin (n * 2 ^ (k - 23)) := by
  obtain ⟨hlo, hhi⟩ := abs_lt.mp hfin
  unfold round
  rw [round_rat_eval x k n h1 h2 hk hn, if_neg (not_le.mpr hhi), if_neg (not_le.mpr hlo)]

/-- Evaluation of `round` for a positive number in the normal range, without absolute
values. -/
theorem round_eval_pos (x : ℚ) (k n : ℤ) (h1 : (2 : ℚ) ^ k ≤ x) (h2 : x < 2 ^ (k + 1))
    (hk : -126 ≤ k) (hn1 : (n : ℚ) - 1 / 2 < x / 2 ^ (k - 23))
    (hn2 : x / 2 ^ (k - 23) < n + 1 / 2) (hfin : (n : ℚ) * 2 ^ (k - 23) < 2 ^ 128) :
    round x = fin (n * 2 ^ (k - 23)) := by
  have hx : 0 < x := lt_of_lt_of_le (zpow_pos (by norm_num) k) h1
  have hu : (0 : ℚ) < 2 ^ (k - 23) := zpow_pos (by norm_num) _
  have hq : 0 < x / 2 ^ (k - 23) := div_pos hx hu
  have hn0 : (0 : ℤ) ≤ n := by
    by_contra hneg
    have : n ≤ -1 := by omega
    have : (n : ℚ) ≤ -1 := by exact_mod_cast this
    linarith
  have hn0' : (0 : ℚ) ≤ n := by exact_mod_cast hn0
  apply round_eval x k n
  · rwa [abs_of_pos hx]
  · rwa [abs_of_pos hx]
  · exact hk
  · rw [abs_lt]
    constructor <;> linarith
  · rw [abs_of_nonneg (mul_nonneg hn0' (le_of_lt hu))]
    exact hfin

/-- Zero is a binary32 value. -/
theorem round_zero : round 0 = fin 0 := by
  unfold round
  rw [round_rat_zero]
  norm_num

end binary32

open binary32

namespace binary32

/-- The number 3 is a binary32 value. -/
theorem round_three : round 3 = fin 3 := by
  have h := round_eval_pos 3 1 12582912 (by norm_num) (by norm_num) (by norm_num)
    (by norm_num) (by norm_num) (by norm_num)
  norm_num at h
  exact h

/-- The number 5 is a binary32 value. -/
theorem round_five : round 5 = fin 5 := by
  have h := round_eval_pos 5 2 10485760 (by norm_num) (by norm_num) (by norm_num)
    (by norm_num) (by norm_num) (by norm_num)
  norm_num at h
  exact h

/-- The number 6 is a binary32 value. -/
theorem round_six : round 6 = fin 6 := by
  have h := round_eval_pos 6 2 12582912 (by norm_num) (by norm_num) (by norm_num)
    (by norm_num) (by norm_num) (by norm_num)
  norm_num at h
  exact h

end binary32

/-- The effective maximum of `sample_conn_speed32` is 6. -/
theorem sample_conn_speed32_max : sample_conn_speed32.get_max_speed = binary32.fin 6 := by
  simp only [car_speed32.get_max_speed, sample_conn_speed32, CONN_ROAD_SPEED_MULT, if_true,
    binary32.mul]
  norm_num
  exact binary32.round_six

/-- The car `sample_conn_speed32` satisfies the speed invariant. -/
theorem sample_conn_speed32_in_range : sample_conn_speed32.speed_in_range := by
  constructor
  · simp [sample_conn_speed32, binary32.le]
  · rw [sample_conn_speed32_max]
    norm_num [sample_conn_speed32, binary32.le]

/-- C17, as stated, fails: on binary32 values, with zero frame time and the multiplier
`+inf`, the step `inf*0` is a NaN, so `accelerate` moves the speed 5 of a car within the
invariant (maximum 6) to 6 and `decelerate` moves it to 0; the same happens for a finite
multiplier when `max_speed` is `+inf`. -/
theorem zero_frame_time_counterexample :
    sample_conn_speed32.speed_in_range ∧
    is_value sample_conn_speed32.cur_speed ∧ is_value sample_conn_speed32.max_speed ∧
    sample_conn_speed32.cur_speed = fin 5 ∧
    (sample_conn_speed32.accelerate (fin 0) pinf).cur_speed = fin 6 ∧
    (sample_conn_speed32.decelerate (fin 0) pinf).cur_speed = fin 0 ∧
    sample_conn_speed32.accelerate (fin 0) pinf ≠ sample_conn_speed32 ∧
    sample_conn_speed32.decelerate (fin 0) pinf ≠ sample_conn_speed32 ∧
    ({ sample_conn_speed32 with max_speed := pinf } : car_speed32).speed_in_range ∧
    (({ sample_conn_speed32 with max_speed := pinf } : car_speed32).decelerate
      (fin 0) (fin 1)).cur_speed = fin 0 := by
  have hE := sample_conn_speed32_max
  have hacc : (sample_conn_speed32.accelerate (fin 0) pinf).cur_speed = fin 6 := by
    simp only [car_speed32.accelerate, hE]
    simp [sample_conn_speed32, mul, add, std_min, lt]
  have hdec : (sample_conn_speed32.decelerate (fin 0) pinf).cur_speed = fin 0 := by
    simp [car_speed32.decelerate, sample_conn_speed32, mul, sub, add, neg, std_max, lt]
  refine ⟨sample_conn_speed32_in_range, round_five, round_three, rfl, hacc, hdec, ?_, ?_,
    ⟨?_, ?_⟩, ?_⟩
  · intro h
    have h2 := congrArg car_speed32.cur_speed h
    rw [hacc] at h2
    have h3 : (6 : ℚ) = 5 := by
      injection h2
    norm_num at h3
  · intro h
    have h2 := congrArg car_speed32.cur_speed h
    rw [hdec] at h2
    have h3 : (0 : ℚ) = 5 := by
      injection h2
    norm_num at h3
  · simp [sample_conn_speed32, le]
  · simp [car_speed32.get_max_speed, sample_conn_speed32, CONN_ROAD_SPEED_MULT, mul, le]
  · simp [car_speed32.decelerate, sample_conn_speed32, mul, round_zero, sub, add, neg,
      std_max, lt]

/-- C17, amended: on binary32 values, with zero elapsed frame time (`fticks == 0`),
`accelerate(mult)` and `decelerate(mult)` leave the speed fields of every car unchanged
when `max_speed` and `mult` are finite and the car satisfies
`0 <= cur_speed <= get_max_speed()`; and for any frame time and multiplier neither function
changes a field of the car other than `cur_speed` (so the position is unchanged). -/
theorem zero_frame_time_identity_finite_mult (c : car_speed32) (m ms : ℚ)
    (hms : c.max_speed = fin ms) (hval : is_value c.cur_speed) (hinv : c.speed_in_range)
    (k : car_t) (fticks mult : ℚ) :
    c.accelerate (fin 0) (fin m) = c ∧ c.decelerate (fin 0) (fin m) = c ∧
    ({ k.accelerate fticks mult with cur_speed := k.cur_speed } : car_t) = k ∧
    ({ k.decelerate fticks mult with cur_speed := k.cur_speed } : car_t) = k := by
  obtain ⟨city, cur, mx⟩ := c
  simp only at hms
  subst hms
  obtain ⟨h0, h1⟩ := hinv
  simp only at h0 h1 hval
  have hstep : mul (mul (fin m) (fin 0)) (fin ms) = fin 0 := by
    simp [mul, round_zero]
  refine ⟨?_, ?_, rfl, rfl⟩
  · simp only [car_speed32.accelerate, hstep]
    cases cur with
    | fin cs =>
      have hadd : add (fin cs) (fin 0) = fin cs := by
        simp only [add, add_zero]
        exact hval
      rw [hadd]
      unfold std_min
      split_ifs with hlt
      · rfl
      · -- `cur_speed` is not below the maximum, so it equals it
        generalize car_speed32.get_max_speed
          { cur_city := city, cur_speed := fin cs, max_speed := fin ms } = E at h1 hlt ⊢
        cases E with
        | fin e =>
          have hle : cs ≤ e := by simpa [le] using h1
          have hnlt : ¬ cs < e := by simpa [lt] using hlt
          have : e = cs := le_antisymm (not_lt.mp hnlt) hle
          rw [this]
        | pinf => simp [lt] at hlt
        | ninf => simp [le] at h1
        | nan => simp [le] at h1
    | pinf =>
      generalize hE : car_speed32.get_max_speed
        { cur_city := city, cur_speed := pinf, max_speed := fin ms } = E at h1 ⊢
      cases E with
      | fin e => simp [le] at h1
      | pinf => simp [add, std_min, lt]
      | ninf => simp [le] at h1
      | nan => simp [le] at h1
    | ninf => simp [le] at h0
    | nan => simp [le] at h0
  · simp only [car_speed32.decelerate, hstep]
    cases cur with
    | fin cs =>
      have hsub : sub (fin cs) (fin 0) = fin cs := by
        simp only [sub, neg, add, neg_zero, add_zero]
        exact hval
      rw [hsub]
      have hcs : 0 ≤ cs := by simpa [le] using h0
      unfold std_max
      split_ifs with hlt
      · rfl
      · have hnlt : ¬ (0 : ℚ) < cs := by simpa [lt] using hlt
        have : cs = 0 := le_antisymm (not_lt.mp hnlt) hcs
        rw [this]
    | pinf => simp [sub, neg, add, std_max, lt]
    | ninf => simp [le] at h0
    | nan => simp [le] at h0

/-- Instance of C17 amended at `sample_conn_speed32` with the finite multiplier -9. -/
theorem zero_frame_time_identity_finite_mult_witness :
    sample_conn_speed32.accelerate (fin 0) (fin (-9)) = sample_conn_speed32 ∧
    sample_conn_speed32.decelerate (fin 0) (fin (-9)) = sample_conn_speed32 :=
  ⟨(zero_frame_time_identity_finite_mult sample_conn_speed32 (-9) 3 rfl
      round_five sample_conn_speed32_in_range
      sample_car 1 1).1,
   (zero_frame_time_identity_finite_mult sample_conn_speed32 (-9) 3 rfl
      round_five sample_conn_speed32_in_range
      sample_car 1 1).2.1⟩

namespace binary32

end binary32

end City
